import Mathlib

/-!
Shallow embedding of `src/analyzer.py` (stabla/syntegrity).

Modelling conventions:
* A filesystem path is its list of components below the filesystem root:
  Python `Path("/a/b")` is `["a", "b"]`, the root `Path("/")` is `[]`.
* `hashlib.sha256` is modelled by an arbitrary hash function `H : String → String`:
  a hashlib object accumulates the concatenation of the byte strings passed to
  `update`, and `hexdigest()` applies the pure SHA-256 function to that
  accumulated input.  File bytes are modelled as `List Char`.
* Python dicts are association lists: `dinsert` is `d[k] = v`, `lookupKV` is
  `d.get(k)` / `k in d`; iteration order is list order (= insertion order).
* `sorted` / `list.sort` is the stable insertion sort `pysort` below together
  with the code-point lexicographic order `strLeB` (Python compares strings by
  code points; a stable sort's output is uniquely determined, so any stable
  sort is extensionally faithful to Python's).
* The `multiprocessing.Pool` passes of `process_directory_ultra_optimized`
  run their workers in separate processes forked from the parent: a worker
  reads the parent's `FILE_HASH_CACHE` / `FOLDER_HASH_CACHE` state as of
  the pool's creation, and its own cache writes die with the worker when
  the pool closes, so the parent's process-wide caches are unchanged by a
  directory run and one pass's writes never reach the next pass.
* I/O failure points (`stat`, `open`/`read`, `iterdir`) are modelled by
  `Option`: `none` means the call raises `IOError`/`OSError` at that point.
-/

/-- Python's `sep.join(parts)`. -/
def joinSep (sep : String) : List String → String
  | [] => ""
  | h :: t => t.foldl (fun acc s => acc ++ sep ++ s) h

/-- Code-point lexicographic comparison of character lists (Python's
string comparison restricted to `≤`). -/
def charListLe : List Char → List Char → Bool
  | [], _ => true
  | _ :: _, [] => false
  | a :: as, b :: bs => if a = b then charListLe as bs else decide (a < b)

/-- Python string `≤` (code-point lexicographic). -/
def strLeB (a b : String) : Bool := charListLe a.data b.data

/-- Stable insertion of an element into a sorted list: the new element goes
before the first element it is `le` to, hence before equal elements that came
later in the original list. -/
def pyinsert (le : α → α → Bool) (a : α) : List α → List α
  | [] => [a]
  | b :: bs => if le a b then a :: b :: bs else b :: pyinsert le a bs

/-- Stable insertion sort: the model of Python's `sorted` / `list.sort`. -/
def pysort (le : α → α → Bool) : List α → List α
  | [] => []
  | a :: as => pyinsert le a (pysort le as)

/-- Python dict assignment `d[k] = v` on an association list. -/
def dinsert [DecidableEq κ] (k : κ) (v : ν) : List (κ × ν) → List (κ × ν)
  | [] => [(k, v)]
  | (k₂, v₂) :: t => if k₂ = k then (k, v) :: t else (k₂, v₂) :: dinsert k v t

/-- Python dict lookup `d.get(k)` (and `k in d` is `lookupKV d k ≠ none`). -/
def lookupKV [DecidableEq κ] : List (κ × ν) → κ → Option ν
  | [], _ => none
  | (k₂, v) :: t, k => if k₂ = k then some v else lookupKV t k

/-- Splitting a byte sequence into chunks of `c` bytes (the successive slices
`m[i:i+c]` for `i in range(0, len(m), c)`, and equally the successive
`read(c)` results of a file handle). -/
def chunksOf (c : Nat) (l : List Char) : List (List Char) :=
  if c = 0 ∨ l = [] then [] else l.take c :: chunksOf c (l.drop c)
termination_by l.length
decreasing_by
  simp only [List.length_drop]
  rcases Nat.eq_zero_or_pos c with hc | hc
  · exact absurd (Or.inl hc) (by assumption)
  · have hl : l ≠ [] := by
      intro h
      exact absurd (Or.inr h) (by assumption)
    have : 0 < l.length := List.length_pos.mpr hl
    omega

/-- Absolute rendering of a path: Python `str(Path("/a/b")) = "/a/b"`,
`str(Path("/")) = "/"`. -/
def renderAbs (p : List String) : String := "/" ++ joinSep "/" p

/-- Rendering of a relative path: Python `str(Path("a/b")) = "a/b"` and
`str(p.relative_to(p)) = "."`. -/
def renderRel (p : List String) : String :=
  if p = [] then "." else joinSep "/" p

/-- `Path.name`: the final component (`""` for the root). -/
def pathName (p : List String) : String := (p.getLast?).getD ""

/-- `Path.parent` as a path (the root is its own parent). -/
def pathParent (p : List String) : List String := p.dropLast

/-- `PurePath.is_relative_to`: `base` is a prefix of `p` (including `p` itself). -/
def isRelTo (p base : List String) : Bool := base.isPrefixOf p

/-- `p.relative_to(base)` (meaningful when `isRelTo p base`). -/
def relTo (p base : List String) : List String := p.drop base.length

section sortfacts

theorem pyinsert_perm (le : α → α → Bool) (a : α) (l : List α) :
    List.Perm (pyinsert le a l) (a :: l) := by
  induction l with
  | nil => simp [pyinsert]
  | cons b bs ih =>
    by_cases h : le a b = true
    · simp [pyinsert, h]
    · simp only [pyinsert, if_neg h]
      exact ((ih.cons b).trans (List.Perm.swap a b bs))

theorem pysort_perm (le : α → α → Bool) (l : List α) :
    List.Perm (pysort le l) l := by
  induction l with
  | nil => simp [pysort]
  | cons a as ih =>
    exact (pyinsert_perm le a (pysort le as)).trans (ih.cons a)

theorem pyinsert_pairwise (le : α → α → Bool)
    (htrans : ∀ a b c, le a b = true → le b c = true → le a c = true)
    (htot : ∀ a b, le a b || le b a) (a : α) (l : List α)
    (hl : l.Pairwise (fun x y => le x y = true)) :
    (pyinsert le a l).Pairwise (fun x y => le x y = true) := by
  induction l with
  | nil => simp [pyinsert]
  | cons b bs ih =>
    rcases List.pairwise_cons.mp hl with ⟨hb, hbs⟩
    by_cases h : le a b = true
    · simp only [pyinsert, if_pos h]
      refine List.pairwise_cons.mpr ⟨?_, hl⟩
      intro x hx
      rcases List.mem_cons.mp hx with hx | hx
      · exact hx ▸ h
      · exact htrans a b x h (hb x hx)
    · simp only [pyinsert, if_neg h]
      refine List.pairwise_cons.mpr ⟨?_, ih hbs⟩
      intro x hx
      have hx' := (pyinsert_perm le a bs).mem_iff.mp hx
      rcases List.mem_cons.mp hx' with hx' | hx'
      · rw [hx']
        have := htot a b
        simp [h] at this
        exact this
      · exact hb x hx'

theorem pysort_pairwise (le : α → α → Bool)
    (htrans : ∀ a b c, le a b = true → le b c = true → le a c = true)
    (htot : ∀ a b, le a b || le b a) (l : List α) :
    (pysort le l).Pairwise (fun x y => le x y = true) := by
  induction l with
  | nil => simp [pysort]
  | cons a as ih => exact pyinsert_pairwise le htrans htot a (pysort le as) ih

theorem charListLe_trans :
    ∀ x y z, charListLe x y = true → charListLe y z = true → charListLe x z = true := by
  intro x
  induction x with
  | nil => intro y z _ _; rfl
  | cons a as ih =>
    intro y z h1 h2
    cases y with
    | nil => simp [charListLe] at h1
    | cons b bs =>
      cases z with
      | nil => simp [charListLe] at h2
      | cons c cs =>
        simp only [charListLe] at h1 h2 ⊢
        by_cases hab : a = b
        · subst hab
          simp only [if_pos rfl] at h1
          by_cases hac : a = c
          · subst hac
            simp only [if_pos rfl] at h2 ⊢
            exact ih bs cs h1 h2
          · simp only [if_neg hac] at h2 ⊢
            exact h2
        · simp only [if_neg hab] at h1
          have hab' : a < b := of_decide_eq_true h1
          by_cases hbc : b = c
          · rw [← hbc]
            have hac : a ≠ b := ne_of_lt hab'
            simp only [if_neg hac]
            exact decide_eq_true hab'
          · simp only [if_neg hbc] at h2
            have hbc' : b < c := of_decide_eq_true h2
            have hac' : a < c := lt_trans hab' hbc'
            simp only [if_neg (ne_of_lt hac')]
            exact decide_eq_true hac'

theorem charListLe_total : ∀ x y, (charListLe x y || charListLe y x) = true := by
  intro x
  induction x with
  | nil => intro y; simp [charListLe]
  | cons a as ih =>
    intro y
    cases y with
    | nil => simp [charListLe]
    | cons b bs =>
      simp only [charListLe]
      by_cases hab : a = b
      · subst hab
        simp only [if_pos rfl]
        exact ih bs
      · simp only [if_neg hab, if_neg (Ne.symm hab)]
        rcases lt_or_gt_of_ne hab with h | h
        · simp [decide_eq_true h]
        · simp [decide_eq_true h]

theorem charListLe_antisymm :
    ∀ x y, charListLe x y = true → charListLe y x = true → x = y := by
  intro x
  induction x with
  | nil =>
    intro y _ h2
    cases y with
    | nil => rfl
    | cons b bs => simp [charListLe] at h2
  | cons a as ih =>
    intro y h1 h2
    cases y with
    | nil => simp [charListLe] at h1
    | cons b bs =>
      simp only [charListLe] at h1 h2
      by_cases hab : a = b
      · subst hab
        simp only [if_pos rfl] at h1 h2
        rw [ih bs h1 h2]
      · simp only [if_neg hab, if_neg (Ne.symm hab)] at h1 h2
        exact absurd (lt_trans (of_decide_eq_true h1) (of_decide_eq_true h2))
          (lt_irrefl a)

theorem strLeB_trans (a b c : String) :
    strLeB a b = true → strLeB b c = true → strLeB a c = true :=
  charListLe_trans a.data b.data c.data

theorem strLeB_total (a b : String) : (strLeB a b || strLeB b a) = true :=
  charListLe_total a.data b.data

theorem strLeB_antisymm (a b : String) :
    strLeB a b = true → strLeB b a = true → a = b := by
  intro h1 h2
  exact String.ext (charListLe_antisymm a.data b.data h1 h2)

instance strLeBIsAntisymm : IsAntisymm String (fun a b => strLeB a b = true) :=
  ⟨strLeB_antisymm⟩

/-- Sorting strings is invariant under permutation of the input: Python's
`sorted` depends only on the multiset of elements. -/
theorem pysort_strLeB_eq_of_perm {l₁ l₂ : List String} (h : List.Perm l₁ l₂) :
    pysort strLeB l₁ = pysort strLeB l₂ := by
  refine List.eq_of_perm_of_sorted
    (r := fun a b => strLeB a b = true)
    (((pysort_perm strLeB l₁).trans h).trans (pysort_perm strLeB l₂).symm) ?_ ?_
  · exact pysort_pairwise strLeB strLeB_trans strLeB_total l₁
  · exact pysort_pairwise strLeB strLeB_trans strLeB_total l₂

end sortfacts

/-- One file as discovered on disk.  `content = none`: opening/reading the
file raises; `statSize = none`: `stat()` raises (both caught as
`IOError`/`OSError` by `compute_file_hash_ultra_optimized`). -/
structure FSFile where
  path : List String
  content : Option (List Char)
  statSize : Option Nat
deriving DecidableEq

/-- An immediate child as seen by `iterdir` plus `is_file`/`is_dir` plus
`stat`: a file child carries `st_size`, a directory child carries the
rendered `st_mtime`; `none` means `stat` raises for that child. -/
inductive DirChild where
  | file (name : String) (size : Option Nat)
  | dir (name : String) (mtime : Option String)
deriving DecidableEq

/-- One directory as discovered on disk.  `listing = none`: `iterdir`
raises. -/
structure FSDir where
  path : List String
  listing : Option (List DirChild)
deriving DecidableEq

/-- The scan input: the file and directory lists produced by
`get_all_paths_efficient` (the directory list has the scanned root first),
together with each entry's on-disk data. -/
structure FS where
  files : List FSFile
  dirs : List FSDir
deriving DecidableEq

/-- The process-wide caches `FILE_HASH_CACHE` and `FOLDER_HASH_CACHE`. -/
structure Caches where
  fileCache : List (String × String)
  folderCache : List (String × String)
deriving DecidableEq

/-- Cache key of `compute_file_hash_ultra_optimized`: `str(file_path)`. -/
def fileKey (p : List String) : String := renderAbs p

/-- Cache key `"contents_" + name + "_" + parent` of
`compute_folder_contents_hash_optimized` (line 98). -/
def contentsKey (p : List String) : String :=
  "contents_" ++ pathName p ++ "_" ++ renderAbs (pathParent p)

/-- Cache key `"folder_" + name + "_" + parent` of
`compute_folder_hash_optimized` (line 141). -/
def folderKey (p : List String) : String :=
  "folder_" ++ pathName p ++ "_" ++ renderAbs (pathParent p)

/-- The three size-selected strategies of `compute_file_hash_ultra_optimized`
(lines 64-87): over 10 MiB, mmap fed to the hash in 1 MiB slices; over 1 MiB,
the whole mmap in one `update`; otherwise streamed 128 KiB (131072-byte)
reads until `b""`. -/
def fileHashCore (H : String → String) (content : List Char) (fileSize : Nat) : String :=
  if fileSize > 10 * 1024 * 1024 then
    H (String.mk (List.flatten (chunksOf (1024 * 1024) content)))
  else if fileSize > 1024 * 1024 then
    H (String.mk content)
  else
    H (String.mk (List.flatten (chunksOf 131072 content)))

/-- `compute_file_hash_ultra_optimized` (lines 53-90): cache check, then the
adaptive hashing; an `IOError`/`OSError` (failing `stat` or read) returns
`""` without caching. -/
def compute_file_hash_ultra_optimized (H : String → String)
    (c : List (String × String)) (f : FSFile) : String × List (String × String) :=
  match lookupKV c (fileKey f.path) with
  | some v => (v, c)
  | none =>
    match f.statSize, f.content with
    | some size, some content =>
      let r := fileHashCore H content size
      (r, dinsert (fileKey f.path) r c)
    | _, _ => ("", c)

/-- The `all_hashes` list of `compute_folder_contents_hash_optimized`
(lines 104-117): a `file:` entry for every file-map entry under the folder,
then a `folder:` entry for every folder-map entry under it other than the
folder itself, each tagged with the path relative to the folder. -/
def contentsEntries (folder : List String)
    (fileMap folderMap : List (List String × String)) : List String :=
  (fileMap.filterMap fun e =>
    if isRelTo e.1 folder then
      some ("file:" ++ renderRel (relTo e.1 folder) ++ ":" ++ e.2)
    else none)
  ++ (folderMap.filterMap fun e =>
    if isRelTo e.1 folder = true ∧ e.1 ≠ folder then
      some ("folder:" ++ renderRel (relTo e.1 folder) ++ ":" ++ e.2)
    else none)

/-- Hash-input accumulation of `compute_folder_contents_hash_optimized`
(lines 102-128): sort the entries, and when nonempty feed them joined with
`"|"` to the hash. -/
def compute_folder_contents_hash_pure (H : String → String) (folder : List String)
    (fileMap folderMap : List (List String × String)) : String :=
  let sortedHashes := pysort strLeB (contentsEntries folder fileMap folderMap)
  if sortedHashes = [] then H "" else H (joinSep "|" sortedHashes)

/-- `compute_folder_contents_hash_optimized` (lines 93-133): cache check
keyed by `contentsKey`, then the pure computation (its body performs no I/O,
so the `except` branch is dead code); the result is cached. -/
def compute_folder_contents_hash_optimized (H : String → String)
    (c : List (String × String)) (folder : List String)
    (fileMap folderMap : List (List String × String)) :
    String × List (String × String) :=
  match lookupKV c (contentsKey folder) with
  | some v => (v, c)
  | none =>
    let r := compute_folder_contents_hash_pure H folder fileMap folderMap
    (r, dinsert (contentsKey folder) r c)

/-- One `folder_contents` entry of `compute_folder_hash_optimized`
(lines 161-175): per immediate child, a failing `stat` degrades the
size/mtime field to `0`. -/
def childEntry : DirChild → String
  | .file n sz => "file:" ++ n ++ ":" ++ (match sz with | some k => toString k | none => "0")
  | .dir n mt => "dir:" ++ n ++ ":" ++ (match mt with | some m => m | none => "0")

/-- The `folder_contents` list built by the `iterdir` loop of
`compute_folder_hash_optimized` (an append-accumulating loop). -/
def structEntriesLoop : List DirChild → List String → List String
  | [], acc => acc
  | ch :: rest, acc => structEntriesLoop rest (acc ++ [childEntry ch])

/-- Hash-input accumulation of `compute_folder_hash_optimized`
(lines 145-188): `update("path:" + str(folder_path))`, then the sorted child
entries joined with `"|"` when nonempty; `none` when `iterdir` raises (the
outer `except` then returns `""`). -/
def compute_folder_hash_pure (H : String → String) (d : FSDir) : Option String :=
  match d.listing with
  | none => none
  | some children =>
    let sortedContents := pysort strLeB (structEntriesLoop children [])
    some (H ("path:" ++ renderAbs d.path ++
      (if sortedContents = [] then "" else joinSep "|" sortedContents)))

/-- `compute_folder_hash_optimized` (lines 136-191): cache check keyed by
`folderKey`; a raising `iterdir` returns `""` without caching. -/
def compute_folder_hash_optimized (H : String → String)
    (c : List (String × String)) (d : FSDir) : String × List (String × String) :=
  match lookupKV c (folderKey d.path) with
  | some v => (v, c)
  | none =>
    match compute_folder_hash_pure H d with
    | some r => (r, dinsert (folderKey d.path) r c)
    | none => ("", c)

/-- `hash_folder_worker_optimized` (lines 202-208): hash1 then hash2 for one
folder. -/
def hash_folder_worker_optimized (H : String → String)
    (c : List (String × String)) (d : FSDir)
    (fileMap folderMap : List (List String × String)) :
    (List String × String × String) × List (String × String) :=
  let r1 := compute_folder_contents_hash_optimized H c d.path fileMap folderMap
  let r2 := compute_folder_hash_optimized H r1.2 d
  ((d.path, r1.1, r2.1), r2.2)

/-- One `Pool` pass over the folder list
(`pool.starmap(hash_folder_worker_optimized, ...)`).  Each task runs in a
pool worker — a separate process forked from the parent — so it sees the
parent's `FOLDER_HASH_CACHE` state `c` and its own cache writes die with
the worker when the pool closes; the parent's cache is never written.
Giving every task a fresh copy of `c` is observationally equal to the real
pool: a pass never looks up a key another task of the same pass wrote,
because cache keys name the folder and discovery lists each folder once. -/
def folderPass (H : String → String) (c : List (String × String))
    (fileMap folderMap : List (List String × String)) (dirs : List FSDir) :
    List (List String × String × String) :=
  dirs.map fun d => (hash_folder_worker_optimized H c d fileMap folderMap).1

/-- The file `Pool` pass (`pool.map(hash_file_worker_optimized, files)`);
as in `folderPass`, every worker reads the parent's `FILE_HASH_CACHE` state
and its cache writes are discarded when the pool closes.  Each result pairs
the file's path with its digest. -/
def filePass (H : String → String) (c : List (String × String))
    (files : List FSFile) : List (List String × String) :=
  files.map fun f => (f.path, (compute_file_hash_ultra_optimized H c f).1)

/-- The `file_hash_map` comprehension of line 231: keep nonempty digests,
keyed by path (dict build, later keys overwriting earlier ones). -/
def fileHashMapOf (results : List (List String × String)) :
    List (List String × String) :=
  results.foldl (fun acc e => if e.2 ≠ "" then dinsert e.1 e.2 acc else acc) []

/-- The `folder_hash_map` comprehension of line 242: path to hash2, keeping
nonempty hash2 values. -/
def folderHashMapOf (results : List (List String × String × String)) :
    List (List String × String) :=
  results.foldl (fun acc e => if e.2.2 ≠ "" then dinsert e.1 e.2.2 acc else acc) []

/-- The outcome of one `process_directory_ultra_optimized` run together with
the final process-wide caches. -/
structure RunResult where
  fileResults : List (List String × String)
  folderResults : List (List String × String × String)
  caches : Caches
deriving DecidableEq

/-- `process_directory_ultra_optimized` (lines 211-249): discovery is the
`FS` argument; the file pool runs first, then two folder pools, the first
with an empty `folder_hash_map` and the second with the hash2 map built
from the first pass.  All hashing happens in pool workers (separate
processes forked from the parent at each `with Pool(...)`), so the first
pass's worker-local cache writes are invisible to the second pass — both
pools start from the parent's cache state `c` — and the parent's
process-wide caches come out unchanged. -/
def process_directory_ultra_optimized (H : String → String) (fs : FS)
    (c : Caches) : RunResult :=
  if fs.files = [] ∧ fs.dirs = [] then ⟨[], [], c⟩
  else
    let fileResults := filePass H c.fileCache fs.files
    let fileMap := fileHashMapOf fileResults
    let pass1 := folderPass H c.folderCache fileMap [] fs.dirs
    let folderMap := folderHashMapOf pass1
    let pass2 := folderPass H c.folderCache fileMap folderMap fs.dirs
    ⟨fileResults, pass2, c⟩

/-- The `current_files` dict built in `detect_changes` (lines 385-389):
nonempty file digests keyed by the root-relative rendered path. -/
def currentFilesOf (root : List String)
    (fileResults : List (List String × String)) : List (String × String) :=
  fileResults.foldl
    (fun acc e =>
      if e.2 ≠ "" then dinsert (renderRel (relTo e.1 root)) e.2 acc else acc) []

/-- The `current_folders` dict built in `detect_changes` (lines 391-395) —
also the `folders_dict` of `save_current_hashes` (lines 357-361): folders
with both digests nonempty, keyed by the root-relative rendered path. -/
def currentFoldersOf (root : List String)
    (folderResults : List (List String × String × String)) :
    List (String × (String × String)) :=
  folderResults.foldl
    (fun acc e =>
      if e.2.1 ≠ "" ∧ e.2.2 ≠ "" then
        dinsert (renderRel (relTo e.1 root)) (e.2.1, e.2.2) acc
      else acc) []

/-- The `change_events` list of `detect_changes` (lines 397-435), in
emission order: deleted files, deleted folders, modified files, new folders,
new files, then per folder present in both maps a contents-changed and/or a
structure-changed event. -/
def changeEventsList (prevFiles : List (String × String))
    (prevFolders : List (String × (String × String)))
    (currFiles : List (String × String))
    (currFolders : List (String × (String × String))) : List (Nat × String) :=
  (prevFiles.filterMap fun e =>
    if lookupKV currFiles e.1 = none then some (1, "DELETED_FILE: " ++ e.1)
    else none)
  ++ (prevFolders.filterMap fun e =>
    if lookupKV currFolders e.1 = none then some (2, "DELETED_FOLDER: " ++ e.1)
    else none)
  ++ (currFiles.filterMap fun e =>
    match lookupKV prevFiles e.1 with
    | some ph => if e.2 ≠ ph then some (3, "MODIFIED_FILE: " ++ e.1) else none
    | none => none)
  ++ (currFolders.filterMap fun e =>
    if lookupKV prevFolders e.1 = none then some (4, "NEW_FOLDER: " ++ e.1)
    else none)
  ++ (currFiles.filterMap fun e =>
    if lookupKV prevFiles e.1 = none then some (5, "NEW_FILE: " ++ e.1)
    else none)
  ++ (currFolders.flatMap fun e =>
    match lookupKV prevFolders e.1 with
    | some pv =>
      (if e.2.1 ≠ pv.1 then
        [(6, "FOLDER_CONTENTS_CHANGED: " ++ e.1 ++ " (files/folders added/removed)")]
      else [])
      ++ (if e.2.2 ≠ pv.2 then
        [(7, "FOLDER_STRUCTURE_CHANGED: " ++ e.1 ++ " (metadata/structure modified)")]
      else [])
    | none => [])

/-- `change_events.sort(key=lambda x: x[0])` (line 438): a stable sort by
priority. -/
def sortedChangeEvents (prevFiles : List (String × String))
    (prevFolders : List (String × (String × String)))
    (currFiles : List (String × String))
    (currFolders : List (String × (String × String))) : List (Nat × String) :=
  pysort (fun a b => decide (a.1 ≤ b.1))
    (changeEventsList prevFiles prevFolders currFiles currFolders)

/-- `detect_changes` (lines 376-441), with the previously persisted maps
passed in (their loading from disk is an external collaborator). -/
def detect_changes (root : List String)
    (prevFiles : List (String × String))
    (prevFolders : List (String × (String × String)))
    (fileResults : List (List String × String))
    (folderResults : List (List String × String × String)) : List String :=
  (sortedChangeEvents prevFiles prevFolders
    (currentFilesOf root fileResults) (currentFoldersOf root folderResults)).map
    (fun e => e.2)

/-- The shape of the scanned subtree as `iterdir` reports it to
`build_structure_recursive`: immediate file names and subdirectory names
with their own subtrees, in on-disk order (the code sorts them). -/
inductive DirTree where
  | mk (files : List String) (subs : List (String × DirTree))

/-- The `folder_hash_map` of line 275: path to the pair (hash1, hash2),
keeping folders whose two digests are both nonempty. -/
def bhsFolderMap (folderResults : List (List String × String × String)) :
    List (List String × (String × String)) :=
  folderResults.foldl
    (fun acc e =>
      if e.2.1 ≠ "" ∧ e.2.2 ≠ "" then dinsert e.1 (e.2.1, e.2.2) acc else acc) []

/-- The bracket-stripping of lines 306-308: drop the outer characters when
the rendering both starts with `[` and ends with `]`. -/
def stripBrackets (s : String) : String :=
  if s.data.head? = some '[' ∧ s.data.getLast? = some ']' then
    String.mk ((s.data.drop 1).dropLast)
  else s

/-- `build_structure_recursive` (lines 277-315): the digests of the sorted
files present in the file map, then per sorted subfolder with both digests
present its hash1 followed by the bracketed recursive rendering (stripped of
a redundant outer bracket pair), or by `[]` when the rendering is empty; the
parts of one level joined with `/`. -/
def build_structure_recursive (fileMap : List (List String × String))
    (folderMap : List (List String × (String × String))) (p : List String) :
    DirTree → String
  | .mk fls subs =>
    let fileParts := (pysort strLeB fls).filterMap fun n =>
      let h := (lookupKV fileMap (p ++ [n])).getD ""
      if h ≠ "" then some h else none
    let folderParts := (pysort (fun a b => strLeB a.1 b.1) subs).attach.filterMap
      (fun nt =>
        match nt with
        | ⟨(n, t), _⟩ =>
          let hs := (lookupKV folderMap (p ++ [n])).getD ("", "")
          if hs.1 ≠ "" ∧ hs.2 ≠ "" then
            let sub := build_structure_recursive fileMap folderMap (p ++ [n]) t
            if sub ≠ "" then some (hs.1 ++ "[" ++ stripBrackets sub ++ "]")
            else some (hs.1 ++ "[]")
          else none)
    joinSep "/" (fileParts ++ folderParts)
termination_by t => sizeOf t
decreasing_by
  rename_i hmem
  have h1 : (n, t) ∈ subs :=
    (pysort_perm (fun a b => strLeB a.1 b.1) subs).mem_iff.mp hmem
  have h2 := List.sizeOf_lt_of_mem h1
  simp only [Prod.mk.sizeOf_spec] at h2
  simp only [DirTree.mk.sizeOf_spec]
  omega

/-- `build_hierarchical_structure` (lines 267-325): the recursive rendering
of the root, wrapped with the root's hash1 when the root has digests. -/
def build_hierarchical_structure (root : List String) (tree : DirTree)
    (fileResults : List (List String × String))
    (folderResults : List (List String × String × String)) : String :=
  let fileMap := fileHashMapOf fileResults
  let folderMap := bhsFolderMap folderResults
  let complete := build_structure_recursive fileMap folderMap root tree
  let rootHashes := (lookupKV folderMap root).getD ("", "")
  if rootHashes.1 ≠ "" ∧ rootHashes.2 ≠ "" then
    "[" ++ rootHashes.1 ++ "[" ++ complete ++ "]]"
  else
    "[" ++ complete ++ "]"

/-- Following the spec's words (§3, structureDigest entries): a file child
contributes `file:name:size-bytes`, a subdirectory child `dir:name:mtime`,
with a stat failure degrading the size/mtime field to `0`. -/
def specChildEntry : DirChild → String
  | .file n sz => "file:" ++ n ++ ":" ++ toString (sz.getD 0)
  | .dir n mt => "dir:" ++ n ++ ":" ++ mt.getD "0"

/-- Following the spec's words (claim C4): the structureDigest is the hash
of the directory's own absolute path string together with one entry per
immediate child, the entries sorted lexicographically before hashing. -/
def structureDigestSpec (H : String → String) (p : List String)
    (children : List DirChild) : String :=
  H ("path:" ++ renderAbs p ++
    (if children = [] then ""
     else joinSep "|" (pysort strLeB (children.map specChildEntry))))

/-- Following the spec's words (§4.4, claim C9): sort the files and emit
each present file's digest; sort the subdirectories and emit each present
subdirectory's contentsDigest followed by its recursively rendered children
wrapped in brackets (so an empty directory contributes its contentsDigest
immediately followed by `[]`); join the tokens of one level with `/`. -/
def specRender (fileMap : List (List String × String))
    (folderMap : List (List String × (String × String))) (p : List String) :
    DirTree → String
  | .mk fls subs =>
    let fileParts := (pysort strLeB fls).filterMap fun n =>
      let h := (lookupKV fileMap (p ++ [n])).getD ""
      if h ≠ "" then some h else none
    let folderParts := (pysort (fun a b => strLeB a.1 b.1) subs).attach.filterMap
      (fun nt =>
        match nt with
        | ⟨(n, t), _⟩ =>
          let hs := (lookupKV folderMap (p ++ [n])).getD ("", "")
          if hs.1 ≠ "" ∧ hs.2 ≠ "" then
            some (hs.1 ++ "[" ++ specRender fileMap folderMap (p ++ [n]) t ++ "]")
          else none)
    joinSep "/" (fileParts ++ folderParts)
termination_by t => sizeOf t
decreasing_by
  rename_i hmem
  have h1 : (n, t) ∈ subs :=
    (pysort_perm (fun a b => strLeB a.1 b.1) subs).mem_iff.mp hmem
  have h2 := List.sizeOf_lt_of_mem h1
  simp only [Prod.mk.sizeOf_spec] at h2
  simp only [DirTree.mk.sizeOf_spec]
  omega

/-- A concrete hash function used to instantiate `H` in witnesses and
counterexamples (injective, never empty, so it behaves like a digest). -/
def sampleHash (s : String) : String := "#" ++ s

theorem flatten_chunksOf (c : Nat) (hc : c ≠ 0) (l : List Char) :
    (chunksOf c l).flatten = l := by
  have H : ∀ n (l : List Char), l.length ≤ n → (chunksOf c l).flatten = l := by
    intro n
    induction n with
    | zero =>
      intro l hl
      have hnil : l = [] := List.eq_nil_of_length_eq_zero (Nat.le_zero.mp hl)
      subst hnil
      rw [chunksOf]
      simp
    | succ n ih =>
      intro l hl
      rw [chunksOf]
      by_cases h : c = 0 ∨ l = []
      · rcases h with h | h
        · exact absurd h hc
        · subst h
          simp
      · simp only [if_neg h]
        push_neg at h
        simp only [List.flatten_cons]
        rw [ih (l.drop c) ?_]
        · exact List.take_append_drop c l
        · have h1 : 0 < l.length := List.length_pos.mpr h.2
          have h2 : 0 < c := Nat.pos_of_ne_zero h.1
          simp only [List.length_drop]
          omega
  exact H l.length l le_rfl

/-- The sorted list is empty exactly when the input is. -/
theorem pysort_eq_nil_iff (le : α → α → Bool) (l : List α) :
    pysort le l = [] ↔ l = [] := by
  constructor
  · intro h
    have := (pysort_perm le l).length_eq
    rw [h] at this
    exact List.eq_nil_of_length_eq_zero this.symm
  · intro h
    subst h
    rfl

/-- C5: for every readable file, the three size-selected hashing strategies
(mmap in 1 MiB slices for size over 10 MiB, whole-file mmap for sizes
between 1 MiB and 10 MiB, streamed 128 KiB reads otherwise) all hash exactly
the file's byte content, so the digest returned by
`compute_file_hash_ultra_optimized` depends only on the bytes and not on
which branch was taken. -/
theorem fileHash_strategies_agree (H : String → String) (p : List String)
    (content : List Char) (size : Nat) :
    fileHashCore H content size = H (String.mk content) ∧
    (compute_file_hash_ultra_optimized H [] ⟨p, some content, some size⟩).1 =
      H (String.mk content) := by
  have hcore : fileHashCore H content size = H (String.mk content) := by
    unfold fileHashCore
    rw [flatten_chunksOf (1024 * 1024) (by decide),
      flatten_chunksOf 131072 (by decide)]
    split
    · rfl
    · split
      · rfl
      · rfl
  refine ⟨hcore, ?_⟩
  simp only [compute_file_hash_ultra_optimized, lookupKV]
  exact hcore

theorem structEntriesLoop_eq (l : List DirChild) :
    ∀ acc, structEntriesLoop l acc = acc ++ l.map childEntry := by
  induction l with
  | nil => intro acc; simp [structEntriesLoop]
  | cons ch rest ih =>
    intro acc
    simp [structEntriesLoop, ih]

theorem childEntry_eq_spec (ch : DirChild) : childEntry ch = specChildEntry ch := by
  cases ch with
  | file n sz => cases sz <;> rfl
  | dir n mt => cases mt <;> rfl

/-- C4: for every directory whose children can be listed, the source's
structureDigest (`compute_folder_hash_optimized`, here its hash-input
accumulation `compute_folder_hash_pure`) equals the digest described by the
spec: the hash of the directory's own absolute path string together with one
entry per immediate child only — `file:name:size` for a file,
`dir:name:mtime` for a subdirectory — the entries sorted lexicographically
before hashing; a stat failure on an individual child (`size`/`mtime` of
`none`) degrades that child's field to `0` and the digest is still
produced (`some`, never the error path). -/
theorem structure_digest_matches_spec (H : String → String) (p : List String)
    (children : List DirChild) :
    compute_folder_hash_pure H ⟨p, some children⟩ =
      some (structureDigestSpec H p children) := by
  simp only [compute_folder_hash_pure, structureDigestSpec]
  rw [structEntriesLoop_eq]
  simp only [List.nil_append]
  have hmap : children.map childEntry = children.map specChildEntry :=
    List.map_congr_left fun ch _ => childEntry_eq_spec ch
  rw [hmap]
  congr 2
  by_cases h : children = []
  · subst h
    simp [pysort, String.append_empty]
  · have h1 : children.map specChildEntry ≠ [] := by
      simp [h]
    have h2 : pysort strLeB (children.map specChildEntry) ≠ [] := by
      rw [Ne, pysort_eq_nil_iff]
      exact h1
    rw [if_neg h2, if_neg h]

theorem contentsEntries_cons_self (d : List String)
    (fm dm : List (List String × String)) (v : String) :
    contentsEntries d fm ((d, v) :: dm) = contentsEntries d fm dm := by
  unfold contentsEntries
  congr 1
  simp only [List.filterMap_cons]
  rw [if_neg (by simp)]

theorem filterMap_filter_guard (p : α → Prop) [DecidablePred p] (f : α → β)
    (l : List α) :
    (l.filter fun a => decide (p a)).filterMap
        (fun a => if p a then some (f a) else none) =
      l.filterMap (fun a => if p a then some (f a) else none) := by
  induction l with
  | nil => rfl
  | cons e rest ih =>
    by_cases h : p e
    · simp [List.filter_cons, h, ih, List.filterMap_cons]
    · simp [List.filter_cons, h, ih, List.filterMap_cons]

theorem contentsEntries_restrict (d : List String)
    (fm dm : List (List String × String)) :
    contentsEntries d (fm.filter fun e => decide (isRelTo e.1 d = true))
      (dm.filter fun e => decide (isRelTo e.1 d = true ∧ e.1 ≠ d)) =
    contentsEntries d fm dm := by
  unfold contentsEntries
  congr 1
  · exact filterMap_filter_guard (fun e => isRelTo e.1 d = true)
      (fun e => "file:" ++ renderRel (relTo e.1 d) ++ ":" ++ e.2) fm
  · exact filterMap_filter_guard (fun e => isRelTo e.1 d = true ∧ e.1 ≠ d)
      (fun e => "folder:" ++ renderRel (relTo e.1 d) ++ ":" ++ e.2) dm

/-- C3: the contentsDigest computed by
`compute_folder_contents_hash_optimized` for a directory `d` is a function
only of the tagged entries (`file:` relative path and digest for file-map
entries under `d`, `folder:` relative path and digest for folder-map entries
strictly under `d`): any two map pairs yielding the same entries up to
permutation (they are lexicographically sorted before hashing) give the same
digest; an entry for `d` itself in the folder map is ignored; and entries
not under `d` are ignored. -/
theorem contents_digest_depends_only_on_entries (H : String → String)
    (d : List String) (fm dm fm2 dm2 : List (List String × String))
    (v : String)
    (hperm : List.Perm (contentsEntries d fm dm) (contentsEntries d fm2 dm2)) :
    compute_folder_contents_hash_pure H d fm dm =
      compute_folder_contents_hash_pure H d fm2 dm2 ∧
    compute_folder_contents_hash_pure H d fm ((d, v) :: dm) =
      compute_folder_contents_hash_pure H d fm dm ∧
    compute_folder_contents_hash_pure H d
      (fm.filter fun e => decide (isRelTo e.1 d = true))
      (dm.filter fun e => decide (isRelTo e.1 d = true ∧ e.1 ≠ d)) =
      compute_folder_contents_hash_pure H d fm dm := by
  refine ⟨?_, ?_, ?_⟩
  · simp only [compute_folder_contents_hash_pure]
    rw [pysort_strLeB_eq_of_perm hperm]
  · simp only [compute_folder_contents_hash_pure]
    rw [contentsEntries_cons_self]
  · simp only [compute_folder_contents_hash_pure]
    rw [contentsEntries_restrict]

/-- Witness for C3 at a concrete directory and concrete maps. -/
theorem contents_digest_depends_only_on_entries_witness :
    compute_folder_contents_hash_pure sampleHash ["r"]
        [(["r", "a"], "ha"), (["r", "b"], "hb")] [(["r", "s"], "hs")] =
      compute_folder_contents_hash_pure sampleHash ["r"]
        [(["r", "b"], "hb"), (["r", "a"], "ha")] [(["r", "s"], "hs")] ∧
    compute_folder_contents_hash_pure sampleHash ["r"]
        [(["r", "a"], "ha"), (["r", "b"], "hb")]
        ((["r"], "own") :: [(["r", "s"], "hs")]) =
      compute_folder_contents_hash_pure sampleHash ["r"]
        [(["r", "a"], "ha"), (["r", "b"], "hb")] [(["r", "s"], "hs")] ∧
    compute_folder_contents_hash_pure sampleHash ["r"]
        ([(["r", "a"], "ha"), (["r", "b"], "hb")].filter
          fun e => decide (isRelTo e.1 ["r"] = true))
        ([(["r", "s"], "hs")].filter
          fun e => decide (isRelTo e.1 ["r"] = true ∧ e.1 ≠ ["r"])) =
      compute_folder_contents_hash_pure sampleHash ["r"]
        [(["r", "a"], "ha"), (["r", "b"], "hb")] [(["r", "s"], "hs")] :=
  contents_digest_depends_only_on_entries sampleHash ["r"]
    [(["r", "a"], "ha"), (["r", "b"], "hb")] [(["r", "s"], "hs")]
    [(["r", "b"], "hb"), (["r", "a"], "ha")] [(["r", "s"], "hs")]
    "own" (by decide)

section dictfacts

variable {κ ν : Type} [DecidableEq κ]

theorem lookupKV_mem {c : List (κ × ν)} {k : κ} {v : ν}
    (h : lookupKV c k = some v) : (k, v) ∈ c := by
  induction c with
  | nil => simp [lookupKV] at h
  | cons e rest ih =>
    rcases e with ⟨k₂, v₂⟩
    by_cases hk : k₂ = k
    · simp only [lookupKV, if_pos hk] at h
      injection h with hv
      rw [← hk, ← hv]
      exact List.mem_cons_self _ _
    · simp only [lookupKV, if_neg hk] at h
      exact List.mem_cons_of_mem _ (ih h)

theorem lookupKV_dinsert (c : List (κ × ν)) (k k₂ : κ) (v : ν) :
    lookupKV (dinsert k₂ v c) k = if k₂ = k then some v else lookupKV c k := by
  induction c with
  | nil =>
    by_cases hk : k₂ = k
    · simp [dinsert, lookupKV, hk]
    · simp [dinsert, lookupKV, hk]
  | cons e rest ih =>
    rcases e with ⟨k₃, v₃⟩
    by_cases h3 : k₃ = k₂
    · subst h3
      simp only [dinsert, if_pos rfl]
      by_cases hk : k₃ = k
      · simp [lookupKV, hk]
      · simp [lookupKV, hk]
    · simp only [dinsert, if_neg h3]
      by_cases hk : k₃ = k
      · subst hk
        have hne : ¬ k₂ = k₃ := fun h => h3 h.symm
        simp [lookupKV, if_neg hne]
      · simp only [lookupKV, if_neg hk]
        exact ih

theorem dinsert_mem {c : List (κ × ν)} {k : κ} {v : ν} {kv : κ × ν}
    (h : kv ∈ dinsert k v c) : kv = (k, v) ∨ kv ∈ c := by
  induction c with
  | nil =>
    simp [dinsert] at h
    exact Or.inl h
  | cons e rest ih =>
    rcases e with ⟨k₂, v₂⟩
    by_cases hk : k₂ = k
    · simp only [dinsert, if_pos hk] at h
      rcases List.mem_cons.mp h with h | h
      · exact Or.inl h
      · exact Or.inr (List.mem_cons_of_mem _ h)
    · simp only [dinsert, if_neg hk] at h
      rcases List.mem_cons.mp h with h | h
      · exact Or.inr (h ▸ List.mem_cons_self _ _)
      · rcases ih h with h | h
        · exact Or.inl h
        · exact Or.inr (List.mem_cons_of_mem _ h)

theorem lookupKV_dinsert_present {c : List (κ × ν)} {k : κ}
    (h : lookupKV c k ≠ none) (k₂ : κ) (v : ν) :
    lookupKV (dinsert k₂ v c) k ≠ none := by
  rw [lookupKV_dinsert]
  by_cases hk : k₂ = k
  · simp [hk]
  · simp only [if_neg hk]
    exact h

end dictfacts

section foldfacts

variable {α κ ν : Type} [DecidableEq κ]

/-- Lookup in a dict built by a guarded fold is `none` exactly when the
accumulator misses the key and no guard-passing element carries it. -/
theorem foldl_dinsert_lookup_none (key : α → κ) (val : α → ν) (Q : α → Prop)
    [DecidablePred Q] :
    ∀ (l : List α) (acc : List (κ × ν)) (k : κ),
      lookupKV
        (l.foldl (fun a e => if Q e then dinsert (key e) (val e) a else a) acc)
        k = none ↔
      (lookupKV acc k = none ∧ ∀ e ∈ l, Q e → key e ≠ k) := by
  intro l
  induction l with
  | nil =>
    intro acc k
    simp
  | cons e rest ih =>
    intro acc k
    simp only [List.foldl_cons]
    by_cases hq : Q e
    · rw [if_pos hq, ih, lookupKV_dinsert]
      by_cases hk : key e = k
      · rw [if_pos hk]
        simp only [List.forall_mem_cons]
        constructor
        · intro h
          exact absurd h.1 (by simp)
        · intro h
          exact absurd hk (h.2.1 hq)
      · rw [if_neg hk]
        simp only [List.forall_mem_cons]
        constructor
        · intro h
          exact ⟨h.1, fun _ => hk, h.2⟩
        · intro h
          exact ⟨h.1, h.2.2⟩
    · rw [if_neg hq, ih]
      simp only [List.forall_mem_cons]
      constructor
      · intro h
        exact ⟨h.1, fun hQ => absurd hQ hq, h.2⟩
      · intro h
        exact ⟨h.1, h.2.2⟩

/-- Every entry of a dict built by a guarded fold comes from the accumulator
or from a guard-passing element. -/
theorem foldl_dinsert_mem (key : α → κ) (val : α → ν) (Q : α → Prop)
    [DecidablePred Q] :
    ∀ (l : List α) (acc : List (κ × ν)) (kv : κ × ν),
      kv ∈ l.foldl (fun a e => if Q e then dinsert (key e) (val e) a else a) acc →
      kv ∈ acc ∨ ∃ e ∈ l, Q e ∧ key e = kv.1 ∧ val e = kv.2 := by
  intro l
  induction l with
  | nil =>
    intro acc kv h
    exact Or.inl h
  | cons e rest ih =>
    intro acc kv h
    simp only [List.foldl_cons] at h
    rcases ih _ kv h with h2 | h2
    · by_cases hq : Q e
      · rw [if_pos hq] at h2
        rcases dinsert_mem h2 with h3 | h3
        · refine Or.inr ⟨e, List.mem_cons_self _ _, hq, ?_, ?_⟩
          · rw [h3]
          · rw [h3]
        · exact Or.inl h3
      · rw [if_neg hq] at h2
        exact Or.inl h2
    · rcases h2 with ⟨e2, he2, hq2, hk2, hv2⟩
      exact Or.inr ⟨e2, List.mem_cons_of_mem _ he2, hq2, hk2, hv2⟩

/-- Lookup in a dict built by a guarded fold returns `v` when every
guard-passing element carrying the key agrees on `v`, some source for `v`
exists, and the accumulator cannot disagree. -/
theorem foldl_dinsert_lookup_some (key : α → κ) (val : α → ν) (Q : α → Prop)
    [DecidablePred Q] :
    ∀ (l : List α) (acc : List (κ × ν)) (k : κ) (v : ν),
      (∀ e ∈ l, Q e → key e = k → val e = v) →
      ((∃ e ∈ l, Q e ∧ key e = k) ∨ lookupKV acc k = some v) →
      (lookupKV acc k = none ∨ lookupKV acc k = some v) →
      lookupKV
        (l.foldl (fun a e => if Q e then dinsert (key e) (val e) a else a) acc)
        k = some v := by
  intro l
  induction l with
  | nil =>
    intro acc k v _ h2 _
    rcases h2 with h2 | h2
    · simp at h2
    · exact h2
  | cons e rest ih =>
    intro acc k v h1 h2 h3
    simp only [List.foldl_cons]
    by_cases hq : Q e
    · rw [if_pos hq]
      by_cases hk : key e = k
      · have hv : val e = v := h1 e (List.mem_cons_self _ _) hq hk
        refine ih _ k v (fun e2 he2 => h1 e2 (List.mem_cons_of_mem _ he2)) ?_ ?_
        · right
          rw [lookupKV_dinsert, if_pos hk, hv]
        · right
          rw [lookupKV_dinsert, if_pos hk, hv]
      · refine ih _ k v (fun e2 he2 => h1 e2 (List.mem_cons_of_mem _ he2)) ?_ ?_
        · rcases h2 with ⟨e2, he2, hq2, hk2⟩ | h2
          · rcases List.mem_cons.mp he2 with he2 | he2
            · exact absurd (he2 ▸ hk2) hk
            · exact Or.inl ⟨e2, he2, hq2, hk2⟩
          · right
            rw [lookupKV_dinsert, if_neg hk]
            exact h2
        · rw [lookupKV_dinsert, if_neg hk]
          exact h3
    · rw [if_neg hq]
      refine ih _ k v (fun e2 he2 => h1 e2 (List.mem_cons_of_mem _ he2)) ?_ h3
      rcases h2 with ⟨e2, he2, hq2, hk2⟩ | h2
      · rcases List.mem_cons.mp he2 with he2 | he2
        · exact absurd (he2 ▸ hq2) hq
        · exact Or.inl ⟨e2, he2, hq2, hk2⟩
      · exact Or.inr h2

/-- A guarded fold only grows the dict: present keys stay present. -/
theorem foldl_dinsert_present (key : α → κ) (val : α → ν) (Q : α → Prop)
    [DecidablePred Q] :
    ∀ (l : List α) (acc : List (κ × ν)) (k : κ),
      lookupKV acc k ≠ none →
      lookupKV
        (l.foldl (fun a e => if Q e then dinsert (key e) (val e) a else a) acc)
        k ≠ none := by
  intro l
  induction l with
  | nil =>
    intro acc k h
    exact h
  | cons e rest ih =>
    intro acc k h
    simp only [List.foldl_cons]
    by_cases hq : Q e
    · rw [if_pos hq]
      exact ih _ k (lookupKV_dinsert_present h _ _)
    · rw [if_neg hq]
      exact ih _ k h

end foldfacts

/-- The cache-free file digest: `some` on success, `none` when `stat` or the
read raises. -/
def fileHashResult (H : String → String) (f : FSFile) : Option String :=
  match f.statSize, f.content with
  | some size, some content => some (fileHashCore H content size)
  | _, _ => none

/-- The string recorded for one file by the file pass (`""` on error). -/
def fileResultVal (H : String → String) (f : FSFile) : String :=
  (fileHashResult H f).getD ""

/-- The file results of a run as a pure function of the discovered set. -/
def pureFileResults (H : String → String) (fs : FS) :
    List (List String × String) :=
  fs.files.map fun f => (f.path, fileResultVal H f)

/-- The first folder pass as a pure function of the discovered set: with
cold parent caches every worker misses, so hash1 is computed against the
empty `folder_hash_map` of line 238 and hash2 is the structure digest
(`""` on a listing failure). -/
def pureFolderPass1 (H : String → String) (fs : FS) :
    List (List String × String × String) :=
  fs.dirs.map fun d =>
    (d.path,
     compute_folder_contents_hash_pure H d.path
       (fileHashMapOf (pureFileResults H fs)) [],
     (compute_folder_hash_pure H d).getD "")

/-- The final folder results of a run as a pure function of the discovered
set: the first pass's worker-local cache writes are gone with the first
pool, so the second pass recomputes hash1 against the complete
structureDigest map of line 242; hash2 is the structure digest (`""` on a
listing failure). -/
def pureFolderResults (H : String → String) (fs : FS) :
    List (List String × String × String) :=
  fs.dirs.map fun d =>
    (d.path,
     compute_folder_contents_hash_pure H d.path
       (fileHashMapOf (pureFileResults H fs))
       (folderHashMapOf (pureFolderPass1 H fs)),
     (compute_folder_hash_pure H d).getD "")

/-- Cache-key sanity of a discovered set: distinct files have distinct
`FILE_HASH_CACHE` keys, distinct directories distinct `contents_` and
`folder_` keys (true of any real directory tree, where keys embed the
absolute path). -/
def GoodFS (fs : FS) : Prop :=
  (fs.files.map fun f => fileKey f.path).Nodup ∧
  (fs.dirs.map fun d => contentsKey d.path).Nodup ∧
  (fs.dirs.map fun d => folderKey d.path).Nodup

instance (fs : FS) : Decidable (GoodFS fs) := by
  unfold GoodFS
  infer_instance

/-- A `contents_` key never collides with a `folder_` key. -/
theorem contentsKey_ne_folderKey (p q : List String) :
    contentsKey p ≠ folderKey q := by
  intro h
  have h2 := congrArg (fun s => s.data.head?) h
  simp only [contentsKey, folderKey, String.data_append] at h2
  simp only [List.cons_append, List.head?_cons, Option.some.injEq] at h2
  exact absurd h2 (by decide)

theorem compute_file_hash_cold (H : String → String) (f : FSFile) :
    (compute_file_hash_ultra_optimized H [] f).1 = fileResultVal H f := by
  unfold compute_file_hash_ultra_optimized
  rcases hss : f.statSize with _ | size
  · simp [lookupKV, hss, fileResultVal, fileHashResult]
  · rcases hcc : f.content with _ | content
    · simp [lookupKV, hss, hcc, fileResultVal, fileHashResult]
    · simp [lookupKV, hss, hcc, fileResultVal, fileHashResult]

theorem filePass_cold (H : String → String) (files : List FSFile) :
    filePass H [] files = files.map fun f => (f.path, fileResultVal H f) := by
  unfold filePass
  exact List.map_congr_left fun f _ => by rw [compute_file_hash_cold]

/-- A worker started on a cold cache computes hash1 from the folder map it
was handed (empty in pass 1, the full hash2 map in pass 2) and hash2 from
the directory's listing: its freshly written `contents_` entry cannot
answer the `folder_` lookup, the two key families being disjoint. -/
theorem folder_worker_cold (H : String → String) (d : FSDir)
    (fm dmap : List (List String × String)) :
    (hash_folder_worker_optimized H [] d fm dmap).1 =
      (d.path, compute_folder_contents_hash_pure H d.path fm dmap,
       (compute_folder_hash_pure H d).getD "") := by
  unfold hash_folder_worker_optimized compute_folder_contents_hash_optimized
  simp only [lookupKV]
  unfold compute_folder_hash_optimized
  simp only [dinsert, lookupKV]
  rw [if_neg (contentsKey_ne_folderKey d.path d.path)]
  cases hp : compute_folder_hash_pure H d with
  | some r => simp [hp]
  | none => simp [hp]

theorem folderPass_cold (H : String → String)
    (fm dmap : List (List String × String)) (dirs : List FSDir) :
    folderPass H [] fm dmap dirs = dirs.map fun d =>
      (d.path, compute_folder_contents_hash_pure H d.path fm dmap,
       (compute_folder_hash_pure H d).getD "") := by
  unfold folderPass
  exact List.map_congr_left fun d _ => folder_worker_cold H d fm dmap

/-- All hashing of a directory run happens inside pool workers, so the
parent's process-wide caches are returned unchanged. -/
theorem process_directory_caches_unchanged (H : String → String) (fs : FS)
    (c : Caches) : (process_directory_ultra_optimized H fs c).caches = c := by
  unfold process_directory_ultra_optimized
  by_cases h : fs.files = [] ∧ fs.dirs = []
  · rw [if_pos h]
  · rw [if_neg h]

/-- The cold-cache run characterization: every file gets its digest (or the
`""` sentinel), and every directory the pair (second-pass contentsDigest
computed from the complete structureDigest map, structure digest). -/
theorem process_directory_cold (H : String → String) (fs : FS) :
    (process_directory_ultra_optimized H fs ⟨[], []⟩).fileResults =
      pureFileResults H fs ∧
    (process_directory_ultra_optimized H fs ⟨[], []⟩).folderResults =
      pureFolderResults H fs := by
  unfold process_directory_ultra_optimized
  by_cases h : fs.files = [] ∧ fs.dirs = []
  · rw [if_pos h]
    constructor
    · simp [pureFileResults, h.1]
    · simp [pureFolderResults, h.2]
  · rw [if_neg h]
    simp only [filePass_cold, folderPass_cold]
    constructor
    · rfl
    · rfl

theorem sampleHash_ne_empty (s : String) : sampleHash s ≠ "" := by
  intro h
  have h2 := congrArg String.data h
  simp [sampleHash, String.data_append] at h2

/-- C1: on every discovered path set (a run with cold caches), the
contentsDigest (hash1) returned for every directory in the final folder
results is the one computed with the complete structureDigest (hash2) map
built in the first `Pool` pass — because the pool workers are separate
processes, the first pass's `contents_` cache entries never reach the
second pass's workers, which therefore recompute hash1 against the full
`folder_hash_map`.  On the concrete tree of a root `/r` holding the single
empty subdirectory `/r/s`, `/r`'s returned contentsDigest is
`H("folder:s:" ++ hash2(/r/s))`, which differs from the value the first
pass computed with the empty folder map, `H("")`. -/
theorem second_pass_contents_hash_uses_full_folder_map
    (H : String → String) (fs : FS) :
    (process_directory_ultra_optimized H fs ⟨[], []⟩).folderResults =
      fs.dirs.map (fun d =>
        (d.path,
         compute_folder_contents_hash_pure H d.path
           (fileHashMapOf (pureFileResults H fs))
           (folderHashMapOf (pureFolderPass1 H fs)),
         (compute_folder_hash_pure H d).getD "")) ∧
    (process_directory_ultra_optimized sampleHash
        ⟨[], [⟨["r"], some [.dir "s" (some "7.0")]⟩, ⟨["r", "s"], some []⟩]⟩
        ⟨[], []⟩).folderResults =
      [(["r"], "#folder:s:#path:/r/s", "#path:/rdir:s:7.0"),
       (["r", "s"], "#", "#path:/r/s")] ∧
    compute_folder_contents_hash_pure sampleHash ["r"]
        (fileHashMapOf (pureFileResults sampleHash
          ⟨[], [⟨["r"], some [.dir "s" (some "7.0")]⟩, ⟨["r", "s"], some []⟩]⟩))
        (folderHashMapOf (pureFolderPass1 sampleHash
          ⟨[], [⟨["r"], some [.dir "s" (some "7.0")]⟩,
            ⟨["r", "s"], some []⟩]⟩)) ≠
      compute_folder_contents_hash_pure sampleHash ["r"]
        (fileHashMapOf (pureFileResults sampleHash
          ⟨[], [⟨["r"], some [.dir "s" (some "7.0")]⟩,
            ⟨["r", "s"], some []⟩]⟩)) [] := by
  refine ⟨(process_directory_cold H fs).2, by decide, by decide⟩

/-- C2: for a fixed directory tree (a fixed `FS`), running the digest
computation cold (empty caches) and then warm (caches as left by the cold
run over the same tree) yields identical file digest results, identical
(contentsDigest, structureDigest) pairs for every directory, and an
identical serialized structure string. -/
theorem run_deterministic_cold_then_warm (H : String → String) (fs : FS)
    (root : List String) (tree : DirTree) (_hgood : GoodFS fs) :
    (process_directory_ultra_optimized H fs
        (process_directory_ultra_optimized H fs ⟨[], []⟩).caches).fileResults =
      (process_directory_ultra_optimized H fs ⟨[], []⟩).fileResults ∧
    (process_directory_ultra_optimized H fs
        (process_directory_ultra_optimized H fs ⟨[], []⟩).caches).folderResults =
      (process_directory_ultra_optimized H fs ⟨[], []⟩).folderResults ∧
    build_hierarchical_structure root tree
        (process_directory_ultra_optimized H fs
          (process_directory_ultra_optimized H fs ⟨[], []⟩).caches).fileResults
        (process_directory_ultra_optimized H fs
          (process_directory_ultra_optimized H fs ⟨[], []⟩).caches).folderResults =
      build_hierarchical_structure root tree
        (process_directory_ultra_optimized H fs ⟨[], []⟩).fileResults
        (process_directory_ultra_optimized H fs ⟨[], []⟩).folderResults := by
  have hc : (process_directory_ultra_optimized H fs ⟨[], []⟩).caches =
      (⟨[], []⟩ : Caches) := process_directory_caches_unchanged H fs ⟨[], []⟩
  rw [hc]
  exact ⟨rfl, rfl, rfl⟩

/-- Witness for C2 on a concrete one-file, one-directory tree. -/
theorem run_deterministic_cold_then_warm_witness :
    (process_directory_ultra_optimized sampleHash
        ⟨[⟨["r", "a.txt"], some ['h', 'i'], some 2⟩],
         [⟨["r"], some [.file "a.txt" (some 2)]⟩]⟩
        (process_directory_ultra_optimized sampleHash
          ⟨[⟨["r", "a.txt"], some ['h', 'i'], some 2⟩],
           [⟨["r"], some [.file "a.txt" (some 2)]⟩]⟩ ⟨[], []⟩).caches).fileResults =
      (process_directory_ultra_optimized sampleHash
        ⟨[⟨["r", "a.txt"], some ['h', 'i'], some 2⟩],
         [⟨["r"], some [.file "a.txt" (some 2)]⟩]⟩ ⟨[], []⟩).fileResults ∧
    (process_directory_ultra_optimized sampleHash
        ⟨[⟨["r", "a.txt"], some ['h', 'i'], some 2⟩],
         [⟨["r"], some [.file "a.txt" (some 2)]⟩]⟩
        (process_directory_ultra_optimized sampleHash
          ⟨[⟨["r", "a.txt"], some ['h', 'i'], some 2⟩],
           [⟨["r"], some [.file "a.txt" (some 2)]⟩]⟩ ⟨[], []⟩).caches).folderResults =
      (process_directory_ultra_optimized sampleHash
        ⟨[⟨["r", "a.txt"], some ['h', 'i'], some 2⟩],
         [⟨["r"], some [.file "a.txt" (some 2)]⟩]⟩ ⟨[], []⟩).folderResults ∧
    build_hierarchical_structure ["r"] (.mk ["a.txt"] [])
        (process_directory_ultra_optimized sampleHash
          ⟨[⟨["r", "a.txt"], some ['h', 'i'], some 2⟩],
           [⟨["r"], some [.file "a.txt" (some 2)]⟩]⟩
          (process_directory_ultra_optimized sampleHash
            ⟨[⟨["r", "a.txt"], some ['h', 'i'], some 2⟩],
             [⟨["r"], some [.file "a.txt" (some 2)]⟩]⟩ ⟨[], []⟩).caches).fileResults
        (process_directory_ultra_optimized sampleHash
          ⟨[⟨["r", "a.txt"], some ['h', 'i'], some 2⟩],
           [⟨["r"], some [.file "a.txt" (some 2)]⟩]⟩
          (process_directory_ultra_optimized sampleHash
            ⟨[⟨["r", "a.txt"], some ['h', 'i'], some 2⟩],
             [⟨["r"], some [.file "a.txt" (some 2)]⟩]⟩ ⟨[], []⟩).caches).folderResults =
      build_hierarchical_structure ["r"] (.mk ["a.txt"] [])
        (process_directory_ultra_optimized sampleHash
          ⟨[⟨["r", "a.txt"], some ['h', 'i'], some 2⟩],
           [⟨["r"], some [.file "a.txt" (some 2)]⟩]⟩ ⟨[], []⟩).fileResults
        (process_directory_ultra_optimized sampleHash
          ⟨[⟨["r", "a.txt"], some ['h', 'i'], some 2⟩],
           [⟨["r"], some [.file "a.txt" (some 2)]⟩]⟩ ⟨[], []⟩).folderResults :=
  run_deterministic_cold_then_warm sampleHash
    ⟨[⟨["r", "a.txt"], some ['h', 'i'], some 2⟩],
     [⟨["r"], some [.file "a.txt" (some 2)]⟩]⟩
    ["r"] (.mk ["a.txt"] []) (by decide)

/-- C6: a run over a set containing an unreadable file `f0` (its hashing
raises, modelled by `fileHashResult H f0 = none`) completes with every
discovered path processed: `f0` is recorded with the empty sentinel digest,
is omitted from the `file_hash_map` feeding the contentsDigests and the
serializer and from the `current_files` map feeding snapshot and diff, and
any other readable file `g` still lands in the map with its digest. -/
theorem unreadable_file_dropped_run_continues (H : String → String) (fs : FS)
    (root : List String) (f0 g : FSFile) (v : String)
    (hgood : GoodFS fs) (hf0 : f0 ∈ fs.files)
    (hbad : fileHashResult H f0 = none)
    (hrel : ∀ g2 ∈ fs.files,
      renderRel (relTo g2.path root) = renderRel (relTo f0.path root) →
      g2.path = f0.path)
    (hg : g ∈ fs.files) (hgv : fileHashResult H g = some v) (hvne : v ≠ "") :
    (f0.path, "") ∈
      (process_directory_ultra_optimized H fs ⟨[], []⟩).fileResults ∧
    (process_directory_ultra_optimized H fs ⟨[], []⟩).fileResults =
      fs.files.map (fun f => (f.path, fileResultVal H f)) ∧
    (process_directory_ultra_optimized H fs ⟨[], []⟩).folderResults.length =
      fs.dirs.length ∧
    lookupKV (fileHashMapOf
      (process_directory_ultra_optimized H fs ⟨[], []⟩).fileResults)
      f0.path = none ∧
    lookupKV (currentFilesOf root
      (process_directory_ultra_optimized H fs ⟨[], []⟩).fileResults)
      (renderRel (relTo f0.path root)) = none ∧
    lookupKV (fileHashMapOf
      (process_directory_ultra_optimized H fs ⟨[], []⟩).fileResults)
      g.path = some v := by
  have hchar := process_directory_cold H fs
  have hinj := hgood.1
  refine ⟨?_, ?_, ?_, ?_, ?_, ?_⟩
  · rw [hchar.1]
    exact List.mem_map.mpr ⟨f0, hf0, by simp [fileResultVal, hbad]⟩
  · rw [hchar.1]
    rfl
  · rw [hchar.2]
    simp [pureFolderResults]
  · rw [hchar.1]
    refine (foldl_dinsert_lookup_none (fun e => e.1) (fun e => e.2)
      (fun e => e.2 ≠ "") (pureFileResults H fs) [] f0.path).mpr ⟨rfl, ?_⟩
    intro e he hne hkey
    rcases List.mem_map.mp he with ⟨g2, hg2, hge⟩
    rw [← hge] at hne hkey
    have hpath : g2.path = f0.path := hkey
    have : g2 = f0 := List.inj_on_of_nodup_map hinj hg2 hf0
      (by rw [hpath])
    rw [this] at hne
    simp [fileResultVal, hbad] at hne
  · rw [hchar.1]
    refine (foldl_dinsert_lookup_none
      (fun e => renderRel (relTo e.1 root)) (fun e => e.2)
      (fun e => e.2 ≠ "") (pureFileResults H fs) []
      (renderRel (relTo f0.path root))).mpr ⟨rfl, ?_⟩
    intro e he hne hkey
    rcases List.mem_map.mp he with ⟨g2, hg2, hge⟩
    rw [← hge] at hne hkey
    have hpath : g2.path = f0.path := hrel g2 hg2 hkey
    have : g2 = f0 := List.inj_on_of_nodup_map hinj hg2 hf0
      (by rw [hpath])
    rw [this] at hne
    simp [fileResultVal, hbad] at hne
  · rw [hchar.1]
    refine foldl_dinsert_lookup_some (fun e => e.1) (fun e => e.2)
      (fun e => e.2 ≠ "") (pureFileResults H fs) [] g.path v ?_ ?_ (Or.inl rfl)
    · intro e he hne hkey
      rcases List.mem_map.mp he with ⟨g2, hg2, hge⟩
      rw [← hge] at hne hkey ⊢
      have hpath : g2.path = g.path := hkey
      have : g2 = g := List.inj_on_of_nodup_map hinj hg2 hg (by rw [hpath])
      rw [this]
      simp [fileResultVal, hgv]
    · refine Or.inl ⟨(g.path, fileResultVal H g),
        List.mem_map.mpr ⟨g, hg, rfl⟩, ?_, rfl⟩
      simp [fileResultVal, hgv]
      exact hvne

/-- Witness for C6: a two-file tree whose first file is unreadable. -/
theorem unreadable_file_dropped_run_continues_witness :
    (["r", "bad"], "") ∈
      (process_directory_ultra_optimized sampleHash
        ⟨[⟨["r", "bad"], none, some 1⟩, ⟨["r", "ok"], some ['x'], some 1⟩],
         [⟨["r"], some [.file "bad" none, .file "ok" (some 1)]⟩]⟩
        ⟨[], []⟩).fileResults ∧
    (process_directory_ultra_optimized sampleHash
        ⟨[⟨["r", "bad"], none, some 1⟩, ⟨["r", "ok"], some ['x'], some 1⟩],
         [⟨["r"], some [.file "bad" none, .file "ok" (some 1)]⟩]⟩
        ⟨[], []⟩).fileResults =
      ([⟨["r", "bad"], none, some 1⟩,
        ⟨["r", "ok"], some ['x'], some 1⟩] : List FSFile).map
        (fun f => (f.path, fileResultVal sampleHash f)) ∧
    (process_directory_ultra_optimized sampleHash
        ⟨[⟨["r", "bad"], none, some 1⟩, ⟨["r", "ok"], some ['x'], some 1⟩],
         [⟨["r"], some [.file "bad" none, .file "ok" (some 1)]⟩]⟩
        ⟨[], []⟩).folderResults.length =
      ([⟨["r"], some [.file "bad" none, .file "ok" (some 1)]⟩] :
        List FSDir).length ∧
    lookupKV (fileHashMapOf
      (process_directory_ultra_optimized sampleHash
        ⟨[⟨["r", "bad"], none, some 1⟩, ⟨["r", "ok"], some ['x'], some 1⟩],
         [⟨["r"], some [.file "bad" none, .file "ok" (some 1)]⟩]⟩
        ⟨[], []⟩).fileResults) ["r", "bad"] = none ∧
    lookupKV (currentFilesOf ["r"]
      (process_directory_ultra_optimized sampleHash
        ⟨[⟨["r", "bad"], none, some 1⟩, ⟨["r", "ok"], some ['x'], some 1⟩],
         [⟨["r"], some [.file "bad" none, .file "ok" (some 1)]⟩]⟩
        ⟨[], []⟩).fileResults)
      (renderRel (relTo ["r", "bad"] ["r"])) = none ∧
    lookupKV (fileHashMapOf
      (process_directory_ultra_optimized sampleHash
        ⟨[⟨["r", "bad"], none, some 1⟩, ⟨["r", "ok"], some ['x'], some 1⟩],
         [⟨["r"], some [.file "bad" none, .file "ok" (some 1)]⟩]⟩
        ⟨[], []⟩).fileResults) ["r", "ok"] =
      some (sampleHash (String.mk ['x'])) := by
  have hone : fileHashResult sampleHash ⟨["r", "ok"], some ['x'], some 1⟩ =
      some (sampleHash (String.mk ['x'])) := by
    simp only [fileHashResult, fileHashCore]
    rw [if_neg (by decide), if_neg (by decide),
      flatten_chunksOf 131072 (by decide)]
  exact unreadable_file_dropped_run_continues sampleHash
    ⟨[⟨["r", "bad"], none, some 1⟩, ⟨["r", "ok"], some ['x'], some 1⟩],
     [⟨["r"], some [.file "bad" none, .file "ok" (some 1)]⟩]⟩
    ["r"] ⟨["r", "bad"], none, some 1⟩ ⟨["r", "ok"], some ['x'], some 1⟩
    (sampleHash (String.mk ['x']))
    (by decide) (by decide) rfl (by decide) (by decide) hone
    (sampleHash_ne_empty (String.mk ['x']))

/-- Counterexample for C7 as claimed: on the tree with root `/r` and one
subdirectory `/r/b` whose children cannot be listed (`iterdir` raises),
`/r/b` does NOT receive a degraded structureDigest with a `0` field: its
hash2 field is the empty error sentinel, and it is dropped both from the
`folder_hash_map` of line 242 and from the saved/diffed folder map
(`current_folders` / `folders_dict`), i.e. it does not remain in the
directory digest map of the run's results. -/
theorem unlistable_dir_dropped_counterexample :
    (process_directory_ultra_optimized sampleHash
        ⟨[], [⟨["r"], some [.dir "b" (some "5.0")]⟩, ⟨["r", "b"], none⟩]⟩
        ⟨[], []⟩).folderResults =
      [(["r"], "#", "#path:/rdir:b:5.0"), (["r", "b"], "#", "")] ∧
    lookupKV (folderHashMapOf
      (process_directory_ultra_optimized sampleHash
        ⟨[], [⟨["r"], some [.dir "b" (some "5.0")]⟩, ⟨["r", "b"], none⟩]⟩
        ⟨[], []⟩).folderResults) ["r", "b"] = none ∧
    lookupKV (currentFoldersOf ["r"]
      (process_directory_ultra_optimized sampleHash
        ⟨[], [⟨["r"], some [.dir "b" (some "5.0")]⟩, ⟨["r", "b"], none⟩]⟩
        ⟨[], []⟩).folderResults) "b" = none := by
  refine ⟨?_, ?_, ?_⟩
  · rfl
  · rfl
  · rfl

/-- C7 as amended: when `iterdir` fails for a directory `d0`, its whole
structureDigest degrades to the empty sentinel `""` (not to a digest with a
`0` field) and `d0` is dropped from the run's directory digest maps (both
the hash2 map of line 242 and the saved/diffed `current_folders` map); it is
only a failing `stat` on an individual child that degrades that child's
field to `0` while the directory (here `d1`) still receives a
structureDigest and stays in the map. -/
theorem unlistable_dir_dropped_stat_failure_degraded (H : String → String)
    (fs : FS) (root : List String) (d0 d1 : FSDir)
    (children : List DirChild)
    (hgood : GoodFS fs) (hd0 : d0 ∈ fs.dirs) (hnolist : d0.listing = none)
    (hrel : ∀ d2 ∈ fs.dirs,
      renderRel (relTo d2.path root) = renderRel (relTo d0.path root) →
      d2.path = d0.path)
    (hd1 : d1 ∈ fs.dirs) (hlist : d1.listing = some children)
    (hH : ∀ s, H s ≠ "") :
    (d0.path,
      compute_folder_contents_hash_pure H d0.path
        (fileHashMapOf (pureFileResults H fs))
        (folderHashMapOf (pureFolderPass1 H fs)), "") ∈
      (process_directory_ultra_optimized H fs ⟨[], []⟩).folderResults ∧
    lookupKV (folderHashMapOf
      (process_directory_ultra_optimized H fs ⟨[], []⟩).folderResults)
      d0.path = none ∧
    lookupKV (currentFoldersOf root
      (process_directory_ultra_optimized H fs ⟨[], []⟩).folderResults)
      (renderRel (relTo d0.path root)) = none ∧
    (compute_folder_hash_pure H d1).getD "" =
      H ("path:" ++ renderAbs d1.path ++
        (if pysort strLeB (structEntriesLoop children []) = [] then ""
         else joinSep "|" (pysort strLeB (structEntriesLoop children [])))) ∧
    (compute_folder_hash_pure H d1).getD "" ≠ "" ∧
    lookupKV (folderHashMapOf
      (process_directory_ultra_optimized H fs ⟨[], []⟩).folderResults)
      d1.path = some ((compute_folder_hash_pure H d1).getD "") := by
  have hchar := process_directory_cold H fs
  have hinj := hgood.2.2
  have hpure1 : compute_folder_hash_pure H d1 =
      some (H ("path:" ++ renderAbs d1.path ++
        (if pysort strLeB (structEntriesLoop children []) = [] then ""
         else joinSep "|" (pysort strLeB (structEntriesLoop children []))))) := by
    simp [compute_folder_hash_pure, hlist]
  refine ⟨?_, ?_, ?_, ?_, ?_, ?_⟩
  · rw [hchar.2]
    refine List.mem_map.mpr ⟨d0, hd0, ?_⟩
    simp [compute_folder_hash_pure, hnolist]
  · rw [hchar.2]
    refine (foldl_dinsert_lookup_none (fun e => e.1) (fun e => e.2.2)
      (fun e => e.2.2 ≠ "") (pureFolderResults H fs) [] d0.path).mpr
      ⟨rfl, ?_⟩
    intro e he hne hkey
    rcases List.mem_map.mp he with ⟨d2, hd2, hde⟩
    rw [← hde] at hne hkey
    have hpath : d2.path = d0.path := hkey
    have : d2 = d0 := List.inj_on_of_nodup_map hinj hd2 hd0
      (by rw [hpath])
    rw [this] at hne
    simp [compute_folder_hash_pure, hnolist] at hne
  · rw [hchar.2]
    refine (foldl_dinsert_lookup_none
      (fun e => renderRel (relTo e.1 root)) (fun e => (e.2.1, e.2.2))
      (fun e => e.2.1 ≠ "" ∧ e.2.2 ≠ "") (pureFolderResults H fs) []
      (renderRel (relTo d0.path root))).mpr ⟨rfl, ?_⟩
    intro e he hne hkey
    rcases List.mem_map.mp he with ⟨d2, hd2, hde⟩
    rw [← hde] at hne hkey
    have hpath : d2.path = d0.path := hrel d2 hd2 hkey
    have : d2 = d0 := List.inj_on_of_nodup_map hinj hd2 hd0
      (by rw [hpath])
    rw [this] at hne
    simp [compute_folder_hash_pure, hnolist] at hne
  · rw [hpure1]
    rfl
  · rw [hpure1]
    exact hH _
  · rw [hchar.2]
    refine foldl_dinsert_lookup_some (fun e => e.1) (fun e => e.2.2)
      (fun e => e.2.2 ≠ "") (pureFolderResults H fs) [] d1.path
      ((compute_folder_hash_pure H d1).getD "") ?_ ?_ (Or.inl rfl)
    · intro e he hne hkey
      rcases List.mem_map.mp he with ⟨d2, hd2, hde⟩
      rw [← hde] at hne hkey ⊢
      have hpath : d2.path = d1.path := hkey
      have : d2 = d1 := List.inj_on_of_nodup_map hinj hd2 hd1 (by rw [hpath])
      rw [this]
    · refine Or.inl ⟨(d1.path,
        compute_folder_contents_hash_pure H d1.path
          (fileHashMapOf (pureFileResults H fs))
          (folderHashMapOf (pureFolderPass1 H fs)),
        (compute_folder_hash_pure H d1).getD ""),
        List.mem_map.mpr ⟨d1, hd1, rfl⟩, ?_, rfl⟩
      rw [hpure1]
      exact hH _

/-- Witness for the amended C7 on a concrete tree: `/r/b` unlistable,
`/r/c` listable with a child whose `stat` fails. -/
theorem unlistable_dir_dropped_stat_failure_degraded_witness :
    ((["r", "b"] : List String),
      compute_folder_contents_hash_pure sampleHash ["r", "b"]
        (fileHashMapOf (pureFileResults sampleHash
          ⟨[], [⟨["r"], some [.dir "b" (some "5.0"), .dir "c" (some "6.0")]⟩,
            ⟨["r", "b"], none⟩,
            ⟨["r", "c"], some [.file "z" none]⟩]⟩))
        (folderHashMapOf (pureFolderPass1 sampleHash
          ⟨[], [⟨["r"], some [.dir "b" (some "5.0"), .dir "c" (some "6.0")]⟩,
            ⟨["r", "b"], none⟩,
            ⟨["r", "c"], some [.file "z" none]⟩]⟩)), "") ∈
      (process_directory_ultra_optimized sampleHash
        ⟨[], [⟨["r"], some [.dir "b" (some "5.0"), .dir "c" (some "6.0")]⟩,
          ⟨["r", "b"], none⟩,
          ⟨["r", "c"], some [.file "z" none]⟩]⟩ ⟨[], []⟩).folderResults ∧
    lookupKV (folderHashMapOf
      (process_directory_ultra_optimized sampleHash
        ⟨[], [⟨["r"], some [.dir "b" (some "5.0"), .dir "c" (some "6.0")]⟩,
          ⟨["r", "b"], none⟩,
          ⟨["r", "c"], some [.file "z" none]⟩]⟩ ⟨[], []⟩).folderResults)
      ["r", "b"] = none ∧
    lookupKV (currentFoldersOf ["r"]
      (process_directory_ultra_optimized sampleHash
        ⟨[], [⟨["r"], some [.dir "b" (some "5.0"), .dir "c" (some "6.0")]⟩,
          ⟨["r", "b"], none⟩,
          ⟨["r", "c"], some [.file "z" none]⟩]⟩ ⟨[], []⟩).folderResults)
      (renderRel (relTo ["r", "b"] ["r"])) = none ∧
    (compute_folder_hash_pure sampleHash ⟨["r", "c"],
        some [.file "z" none]⟩).getD "" =
      sampleHash ("path:" ++ renderAbs ["r", "c"] ++
        (if pysort strLeB (structEntriesLoop [.file "z" none] []) = [] then ""
         else joinSep "|"
           (pysort strLeB (structEntriesLoop [.file "z" none] [])))) ∧
    (compute_folder_hash_pure sampleHash ⟨["r", "c"],
        some [.file "z" none]⟩).getD "" ≠ "" ∧
    lookupKV (folderHashMapOf
      (process_directory_ultra_optimized sampleHash
        ⟨[], [⟨["r"], some [.dir "b" (some "5.0"), .dir "c" (some "6.0")]⟩,
          ⟨["r", "b"], none⟩,
          ⟨["r", "c"], some [.file "z" none]⟩]⟩ ⟨[], []⟩).folderResults)
      ["r", "c"] = some ((compute_folder_hash_pure sampleHash ⟨["r", "c"],
        some [.file "z" none]⟩).getD "") :=
  unlistable_dir_dropped_stat_failure_degraded sampleHash
    ⟨[], [⟨["r"], some [.dir "b" (some "5.0"), .dir "c" (some "6.0")]⟩,
      ⟨["r", "b"], none⟩, ⟨["r", "c"], some [.file "z" none]⟩]⟩
    ["r"] ⟨["r", "b"], none⟩ ⟨["r", "c"], some [.file "z" none]⟩
    [.file "z" none]
    (by decide) (by decide) rfl (by decide) (by decide) rfl
    sampleHash_ne_empty

theorem string_append_left_inj (t a b : String) : t ++ a = t ++ b ↔ a = b := by
  constructor
  · intro h
    have h2 := congrArg String.data h
    simp only [String.data_append] at h2
    exact String.ext (List.append_cancel_left h2)
  · intro h
    rw [h]

theorem string_append_both_inj (t s a b : String) :
    t ++ a ++ s = t ++ b ++ s ↔ a = b := by
  constructor
  · intro h
    have h2 := congrArg String.data h
    simp only [String.data_append] at h2
    exact String.ext (List.append_cancel_left (List.append_cancel_right h2))
  · intro h
    rw [h]

theorem lookupKV_of_mem_nodup {κ ν : Type} [DecidableEq κ]
    {l : List (κ × ν)} (hnd : (l.map Prod.fst).Nodup) {k : κ} {v : ν}
    (h : (k, v) ∈ l) : lookupKV l k = some v := by
  induction l with
  | nil => simp at h
  | cons e rest ih =>
    rcases e with ⟨k₂, v₂⟩
    simp only [List.map_cons, List.nodup_cons] at hnd
    rcases List.mem_cons.mp h with h | h
    · rw [Prod.mk.injEq] at h
      simp [lookupKV, h.1.symm, h.2.symm]
    · have hk : k₂ ≠ k := fun he => hnd.1
        (by rw [he]; exact List.mem_map.mpr ⟨(k, v), h, rfl⟩)
      simp only [lookupKV, if_neg hk]
      exact ih hnd.2 h

theorem mem_filterMap_priority {A : Type} {l : List A}
    {g : A → Option (Nat × String)} {m : Nat}
    (hg : ∀ a ev, g a = some ev → ev.1 = m) :
    ∀ ev ∈ l.filterMap g, ev.1 = m := by
  intro ev hmem
  rcases List.mem_filterMap.mp hmem with ⟨a, _, hga⟩
  exact hg a ev hga

theorem mem_flatMap_priority {A : Type} (P : Nat → Prop) {l : List A}
    {g : A → List (Nat × String)}
    (hg : ∀ a ev, ev ∈ g a → P ev.1) :
    ∀ ev ∈ l.flatMap g, P ev.1 := by
  intro ev hmem
  rcases List.mem_flatMap.mp hmem with ⟨a, _, hga⟩
  exact hg a ev hga

theorem mem_delete_block {A B : Type} [DecidableEq B]
    (main : List (String × A))
    (other : List (String × B)) (n : Nat) (tag : String) (p : String)
    (hnd : (main.map Prod.fst).Nodup) :
    ((n, tag ++ p) ∈ main.filterMap (fun e =>
      if lookupKV other e.1 = none then some (n, tag ++ e.1) else none) ↔
      (lookupKV main p ≠ none ∧ lookupKV other p = none)) := by
  rw [List.mem_filterMap]
  constructor
  · rintro ⟨e, he, heq⟩
    rw [Option.ite_none_right_eq_some] at heq
    rcases heq with ⟨hcond, heq⟩
    rw [Option.some.injEq, Prod.mk.injEq] at heq
    have hp : e.1 = p := (string_append_left_inj tag e.1 p).mp heq.2
    rcases e with ⟨k, v⟩
    simp only at hp hcond
    subst hp
    refine ⟨?_, hcond⟩
    rw [lookupKV_of_mem_nodup hnd he]
    simp
  · rintro ⟨h1, h2⟩
    cases hlk : lookupKV main p with
    | none => exact absurd hlk h1
    | some v =>
      exact ⟨(p, v), lookupKV_mem hlk, by rw [if_pos h2]⟩

theorem mem_modified_block (tag : String) (p : String) (n : Nat)
    (currF prevF : List (String × String))
    (hnd : (currF.map Prod.fst).Nodup) :
    ((n, tag ++ p) ∈ currF.filterMap (fun e =>
      match lookupKV prevF e.1 with
      | some ph => if e.2 ≠ ph then some (n, tag ++ e.1) else none
      | none => none) ↔
      ∃ h ph, lookupKV currF p = some h ∧ lookupKV prevF p = some ph ∧
        h ≠ ph) := by
  rw [List.mem_filterMap]
  constructor
  · rintro ⟨e, he, heq⟩
    cases hlk : lookupKV prevF e.1 with
    | none =>
      rw [hlk] at heq
      simp at heq
    | some ph =>
      rw [hlk] at heq
      rw [Option.ite_none_right_eq_some] at heq
      rcases heq with ⟨hne, heq⟩
      rw [Option.some.injEq, Prod.mk.injEq] at heq
      have hp : e.1 = p := (string_append_left_inj tag e.1 p).mp heq.2
      rcases e with ⟨k, v⟩
      simp only at hp hne hlk
      subst hp
      exact ⟨v, ph, lookupKV_of_mem_nodup hnd he, hlk, hne⟩
  · rintro ⟨h, ph, hc, hp2, hne⟩
    refine ⟨(p, h), lookupKV_mem hc, ?_⟩
    have hl : lookupKV prevF (p, h).1 = some ph := hp2
    simp only [hl]
    rw [if_pos hne]

/-- C8: the sorted change list of `detect_changes` is nondecreasing in the
fixed priority (all DELETED_FILE before all DELETED_FOLDER, then
MODIFIED_FILE, NEW_FOLDER, NEW_FILE, FOLDER_CONTENTS_CHANGED and
FOLDER_STRUCTURE_CHANGED last), and it contains exactly the events defined
by the seven membership/digest-difference conditions — in particular a
folder present in both maps emits both event 6 and event 7 when both of its
digests differ. -/
theorem detect_changes_classification
    (prevF currF : List (String × String))
    (prevD currD : List (String × (String × String)))
    (p : String)
    (hpf : (prevF.map Prod.fst).Nodup) (hcf : (currF.map Prod.fst).Nodup)
    (hpd : (prevD.map Prod.fst).Nodup) (hcd : (currD.map Prod.fst).Nodup) :
    (sortedChangeEvents prevF prevD currF currD).Pairwise
      (fun a b => a.1 ≤ b.1) ∧
    ((1, "DELETED_FILE: " ++ p) ∈ sortedChangeEvents prevF prevD currF currD ↔
      lookupKV prevF p ≠ none ∧ lookupKV currF p = none) ∧
    ((2, "DELETED_FOLDER: " ++ p) ∈
        sortedChangeEvents prevF prevD currF currD ↔
      lookupKV prevD p ≠ none ∧ lookupKV currD p = none) ∧
    ((3, "MODIFIED_FILE: " ++ p) ∈ sortedChangeEvents prevF prevD currF currD ↔
      ∃ h ph, lookupKV currF p = some h ∧ lookupKV prevF p = some ph ∧
        h ≠ ph) ∧
    ((4, "NEW_FOLDER: " ++ p) ∈ sortedChangeEvents prevF prevD currF currD ↔
      lookupKV currD p ≠ none ∧ lookupKV prevD p = none) ∧
    ((5, "NEW_FILE: " ++ p) ∈ sortedChangeEvents prevF prevD currF currD ↔
      lookupKV currF p ≠ none ∧ lookupKV prevF p = none) ∧
    ((6, "FOLDER_CONTENTS_CHANGED: " ++ p ++ " (files/folders added/removed)") ∈
        sortedChangeEvents prevF prevD currF currD ↔
      ∃ cv pv, lookupKV currD p = some cv ∧ lookupKV prevD p = some pv ∧
        cv.1 ≠ pv.1) ∧
    ((7, "FOLDER_STRUCTURE_CHANGED: " ++ p ++ " (metadata/structure modified)") ∈
        sortedChangeEvents prevF prevD currF currD ↔
      ∃ cv pv, lookupKV currD p = some cv ∧ lookupKV prevD p = some pv ∧
        cv.2 ≠ pv.2) := by
  have hpr1 : ∀ ev ∈ prevF.filterMap (fun e =>
      if lookupKV currF e.1 = none then some (1, "DELETED_FILE: " ++ e.1)
      else none), ev.1 = 1 := by
    refine mem_filterMap_priority ?_
    intro a ev h
    rw [Option.ite_none_right_eq_some] at h
    obtain ⟨-, h2⟩ := h
    injection h2 with h3
    rw [← h3]
  have hpr2 : ∀ ev ∈ prevD.filterMap (fun e =>
      if lookupKV currD e.1 = none then some (2, "DELETED_FOLDER: " ++ e.1)
      else none), ev.1 = 2 := by
    refine mem_filterMap_priority ?_
    intro a ev h
    rw [Option.ite_none_right_eq_some] at h
    obtain ⟨-, h2⟩ := h
    injection h2 with h3
    rw [← h3]
  have hpr3 : ∀ ev ∈ currF.filterMap (fun e =>
      match lookupKV prevF e.1 with
      | some ph => if e.2 ≠ ph then some (3, "MODIFIED_FILE: " ++ e.1)
        else none
      | none => none), ev.1 = 3 := by
    refine mem_filterMap_priority ?_
    intro a ev h
    cases hlk : lookupKV prevF a.1 with
    | none =>
      rw [hlk] at h
      simp at h
    | some ph =>
      rw [hlk] at h
      rw [Option.ite_none_right_eq_some] at h
      obtain ⟨-, h2⟩ := h
      injection h2 with h3
      rw [← h3]
  have hpr4 : ∀ ev ∈ currD.filterMap (fun e =>
      if lookupKV prevD e.1 = none then some (4, "NEW_FOLDER: " ++ e.1)
      else none), ev.1 = 4 := by
    refine mem_filterMap_priority ?_
    intro a ev h
    rw [Option.ite_none_right_eq_some] at h
    obtain ⟨-, h2⟩ := h
    injection h2 with h3
    rw [← h3]
  have hpr5 : ∀ ev ∈ currF.filterMap (fun e =>
      if lookupKV prevF e.1 = none then some (5, "NEW_FILE: " ++ e.1)
      else none), ev.1 = 5 := by
    refine mem_filterMap_priority ?_
    intro a ev h
    rw [Option.ite_none_right_eq_some] at h
    obtain ⟨-, h2⟩ := h
    injection h2 with h3
    rw [← h3]
  have hpr67 : ∀ ev ∈ currD.flatMap (fun e =>
      match lookupKV prevD e.1 with
      | some pv =>
        (if e.2.1 ≠ pv.1 then
          [(6, "FOLDER_CONTENTS_CHANGED: " ++ e.1 ++
            " (files/folders added/removed)")] else [])
        ++ (if e.2.2 ≠ pv.2 then
          [(7, "FOLDER_STRUCTURE_CHANGED: " ++ e.1 ++
            " (metadata/structure modified)")] else [])
      | none => []), ev.1 = 6 ∨ ev.1 = 7 := by
    refine mem_flatMap_priority (fun n => n = 6 ∨ n = 7) ?_
    intro a ev h
    cases hlk : lookupKV prevD a.1 with
    | none =>
      rw [hlk] at h
      simp at h
    | some pv =>
      rw [hlk] at h
      rw [List.mem_append] at h
      rcases h with h | h
      · by_cases hcond : a.2.1 ≠ pv.1
        · rw [if_pos hcond] at h
          rw [List.mem_singleton] at h
          rw [h]
          exact Or.inl rfl
        · rw [if_neg hcond] at h
          simp at h
      · by_cases hcond : a.2.2 ≠ pv.2
        · rw [if_pos hcond] at h
          rw [List.mem_singleton] at h
          rw [h]
          exact Or.inr rfl
        · rw [if_neg hcond] at h
          simp at h
  have hmem : ∀ (k : Nat) (M : String),
      ((k, M) ∈ sortedChangeEvents prevF prevD currF currD) ↔
      (k, M) ∈ changeEventsList prevF prevD currF currD := by
    intro k M
    simp only [sortedChangeEvents]
    exact (pysort_perm _ _).mem_iff
  refine ⟨?_, ?_, ?_, ?_, ?_, ?_, ?_, ?_⟩
  · refine (pysort_pairwise _ ?_ ?_ _).imp ?_
    · intro a b c h1 h2
      exact decide_eq_true (Nat.le_trans (of_decide_eq_true h1)
        (of_decide_eq_true h2))
    · intro a b
      rcases Nat.le_total a.1 b.1 with h | h
      · simp [decide_eq_true h]
      · simp [decide_eq_true h]
    · intro a b h
      exact of_decide_eq_true h
  · rw [hmem]
    simp only [changeEventsList, List.mem_append]
    constructor
    · rintro (((((h | h) | h) | h) | h) | h)
      · exact (mem_delete_block prevF currF 1 "DELETED_FILE: " p hpf).mp h
      · exact absurd (hpr2 _ h) (by simp)
      · exact absurd (hpr3 _ h) (by simp)
      · exact absurd (hpr4 _ h) (by simp)
      · exact absurd (hpr5 _ h) (by simp)
      · rcases hpr67 _ h with h2 | h2 <;> exact absurd h2 (by simp)
    · intro h
      exact Or.inl (Or.inl (Or.inl (Or.inl (Or.inl
        ((mem_delete_block prevF currF 1 "DELETED_FILE: " p hpf).mpr h)))))
  · rw [hmem]
    simp only [changeEventsList, List.mem_append]
    constructor
    · rintro (((((h | h) | h) | h) | h) | h)
      · exact absurd (hpr1 _ h) (by simp)
      · exact (mem_delete_block prevD currD 2 "DELETED_FOLDER: " p hpd).mp h
      · exact absurd (hpr3 _ h) (by simp)
      · exact absurd (hpr4 _ h) (by simp)
      · exact absurd (hpr5 _ h) (by simp)
      · rcases hpr67 _ h with h2 | h2 <;> exact absurd h2 (by simp)
    · intro h
      exact Or.inl (Or.inl (Or.inl (Or.inl (Or.inr
        ((mem_delete_block prevD currD 2 "DELETED_FOLDER: " p hpd).mpr h)))))
  · rw [hmem]
    simp only [changeEventsList, List.mem_append]
    constructor
    · rintro (((((h | h) | h) | h) | h) | h)
      · exact absurd (hpr1 _ h) (by simp)
      · exact absurd (hpr2 _ h) (by simp)
      · exact (mem_modified_block "MODIFIED_FILE: " p 3 currF prevF hcf).mp h
      · exact absurd (hpr4 _ h) (by simp)
      · exact absurd (hpr5 _ h) (by simp)
      · rcases hpr67 _ h with h2 | h2 <;> exact absurd h2 (by simp)
    · intro h
      exact Or.inl (Or.inl (Or.inl (Or.inr
        ((mem_modified_block "MODIFIED_FILE: " p 3 currF prevF hcf).mpr h))))
  · rw [hmem]
    simp only [changeEventsList, List.mem_append]
    constructor
    · rintro (((((h | h) | h) | h) | h) | h)
      · exact absurd (hpr1 _ h) (by simp)
      · exact absurd (hpr2 _ h) (by simp)
      · exact absurd (hpr3 _ h) (by simp)
      · exact (mem_delete_block currD prevD 4 "NEW_FOLDER: " p hcd).mp h
      · exact absurd (hpr5 _ h) (by simp)
      · rcases hpr67 _ h with h2 | h2 <;> exact absurd h2 (by simp)
    · intro h
      exact Or.inl (Or.inl (Or.inr
        ((mem_delete_block currD prevD 4 "NEW_FOLDER: " p hcd).mpr h)))
  · rw [hmem]
    simp only [changeEventsList, List.mem_append]
    constructor
    · rintro (((((h | h) | h) | h) | h) | h)
      · exact absurd (hpr1 _ h) (by simp)
      · exact absurd (hpr2 _ h) (by simp)
      · exact absurd (hpr3 _ h) (by simp)
      · exact absurd (hpr4 _ h) (by simp)
      · exact (mem_delete_block currF prevF 5 "NEW_FILE: " p hcf).mp h
      · rcases hpr67 _ h with h2 | h2 <;> exact absurd h2 (by simp)
    · intro h
      exact Or.inl (Or.inr
        ((mem_delete_block currF prevF 5 "NEW_FILE: " p hcf).mpr h))
  · rw [hmem]
    simp only [changeEventsList, List.mem_append]
    constructor
    · rintro (((((h | h) | h) | h) | h) | h)
      · exact absurd (hpr1 _ h) (by simp)
      · exact absurd (hpr2 _ h) (by simp)
      · exact absurd (hpr3 _ h) (by simp)
      · exact absurd (hpr4 _ h) (by simp)
      · exact absurd (hpr5 _ h) (by simp)
      · rcases List.mem_flatMap.mp h with ⟨e, he, hmem2⟩
        cases hlk : lookupKV prevD e.1 with
        | none =>
          rw [hlk] at hmem2
          simp at hmem2
        | some pv =>
          rw [hlk] at hmem2
          rw [List.mem_append] at hmem2
          rcases hmem2 with hmem2 | hmem2
          · by_cases hcond : e.2.1 ≠ pv.1
            · rw [if_pos hcond] at hmem2
              rw [List.mem_singleton] at hmem2
              rw [Prod.mk.injEq] at hmem2
              have hp : p = e.1 :=
                (string_append_both_inj "FOLDER_CONTENTS_CHANGED: "
                  " (files/folders added/removed)" p e.1).mp hmem2.2
              rcases e with ⟨k, v⟩
              simp only at hp hcond hlk
              subst hp
              exact ⟨v, pv, lookupKV_of_mem_nodup hcd he, hlk, hcond⟩
            · rw [if_neg hcond] at hmem2
              simp at hmem2
          · by_cases hcond : e.2.2 ≠ pv.2
            · rw [if_pos hcond] at hmem2
              rw [List.mem_singleton] at hmem2
              rw [Prod.mk.injEq] at hmem2
              exact absurd hmem2.1 (by simp)
            · rw [if_neg hcond] at hmem2
              simp at hmem2
    · rintro ⟨cv, pv, hc, hp2, hne⟩
      refine Or.inr ?_
      rw [List.mem_flatMap]
      refine ⟨(p, cv), lookupKV_mem hc, ?_⟩
      have hl : lookupKV prevD (p, cv).1 = some pv := hp2
      simp only [hl]
      rw [List.mem_append]
      left
      rw [if_pos hne]
      exact List.mem_singleton.mpr rfl
  · rw [hmem]
    simp only [changeEventsList, List.mem_append]
    constructor
    · rintro (((((h | h) | h) | h) | h) | h)
      · exact absurd (hpr1 _ h) (by simp)
      · exact absurd (hpr2 _ h) (by simp)
      · exact absurd (hpr3 _ h) (by simp)
      · exact absurd (hpr4 _ h) (by simp)
      · exact absurd (hpr5 _ h) (by simp)
      · rcases List.mem_flatMap.mp h with ⟨e, he, hmem2⟩
        cases hlk : lookupKV prevD e.1 with
        | none =>
          rw [hlk] at hmem2
          simp at hmem2
        | some pv =>
          rw [hlk] at hmem2
          rw [List.mem_append] at hmem2
          rcases hmem2 with hmem2 | hmem2
          · by_cases hcond : e.2.1 ≠ pv.1
            · rw [if_pos hcond] at hmem2
              rw [List.mem_singleton] at hmem2
              rw [Prod.mk.injEq] at hmem2
              exact absurd hmem2.1 (by simp)
            · rw [if_neg hcond] at hmem2
              simp at hmem2
          · by_cases hcond : e.2.2 ≠ pv.2
            · rw [if_pos hcond] at hmem2
              rw [List.mem_singleton] at hmem2
              rw [Prod.mk.injEq] at hmem2
              have hp : p = e.1 :=
                (string_append_both_inj "FOLDER_STRUCTURE_CHANGED: "
                  " (metadata/structure modified)" p e.1).mp hmem2.2
              rcases e with ⟨k, v⟩
              simp only at hp hcond hlk
              subst hp
              exact ⟨v, pv, lookupKV_of_mem_nodup hcd he, hlk, hcond⟩
            · rw [if_neg hcond] at hmem2
              simp at hmem2
    · rintro ⟨cv, pv, hc, hp2, hne⟩
      refine Or.inr ?_
      rw [List.mem_flatMap]
      refine ⟨(p, cv), lookupKV_mem hc, ?_⟩
      have hl : lookupKV prevD (p, cv).1 = some pv := hp2
      simp only [hl]
      rw [List.mem_append]
      right
      rw [if_pos hne]
      exact List.mem_singleton.mpr rfl

/-- Witness for C8 on concrete snapshots: one deleted file, one modified
file, and one directory with both digests changed (emitting events 6 and 7). -/
theorem detect_changes_classification_witness :
    (sortedChangeEvents [("a.txt", "h1"), ("gone.txt", "h9")]
      [("d", ("c1", "s1"))] [("a.txt", "h1x")] [("d", ("c2", "s2"))]).Pairwise
      (fun a b => a.1 ≤ b.1) ∧
    ((1, "DELETED_FILE: " ++ "d") ∈ sortedChangeEvents
        [("a.txt", "h1"), ("gone.txt", "h9")] [("d", ("c1", "s1"))]
        [("a.txt", "h1x")] [("d", ("c2", "s2"))] ↔
      lookupKV [("a.txt", "h1"), ("gone.txt", "h9")] "d" ≠ none ∧
      lookupKV [("a.txt", "h1x")] "d" = none) ∧
    ((2, "DELETED_FOLDER: " ++ "d") ∈ sortedChangeEvents
        [("a.txt", "h1"), ("gone.txt", "h9")] [("d", ("c1", "s1"))]
        [("a.txt", "h1x")] [("d", ("c2", "s2"))] ↔
      lookupKV [("d", ("c1", "s1"))] "d" ≠ none ∧
      lookupKV [("d", ("c2", "s2"))] "d" = none) ∧
    ((3, "MODIFIED_FILE: " ++ "d") ∈ sortedChangeEvents
        [("a.txt", "h1"), ("gone.txt", "h9")] [("d", ("c1", "s1"))]
        [("a.txt", "h1x")] [("d", ("c2", "s2"))] ↔
      ∃ h ph, lookupKV [("a.txt", "h1x")] "d" = some h ∧
        lookupKV [("a.txt", "h1"), ("gone.txt", "h9")] "d" = some ph ∧
        h ≠ ph) ∧
    ((4, "NEW_FOLDER: " ++ "d") ∈ sortedChangeEvents
        [("a.txt", "h1"), ("gone.txt", "h9")] [("d", ("c1", "s1"))]
        [("a.txt", "h1x")] [("d", ("c2", "s2"))] ↔
      lookupKV [("d", ("c2", "s2"))] "d" ≠ none ∧
      lookupKV [("d", ("c1", "s1"))] "d" = none) ∧
    ((5, "NEW_FILE: " ++ "d") ∈ sortedChangeEvents
        [("a.txt", "h1"), ("gone.txt", "h9")] [("d", ("c1", "s1"))]
        [("a.txt", "h1x")] [("d", ("c2", "s2"))] ↔
      lookupKV [("a.txt", "h1x")] "d" ≠ none ∧
      lookupKV [("a.txt", "h1"), ("gone.txt", "h9")] "d" = none) ∧
    ((6, "FOLDER_CONTENTS_CHANGED: " ++ "d" ++
        " (files/folders added/removed)") ∈ sortedChangeEvents
        [("a.txt", "h1"), ("gone.txt", "h9")] [("d", ("c1", "s1"))]
        [("a.txt", "h1x")] [("d", ("c2", "s2"))] ↔
      ∃ cv pv, lookupKV [("d", ("c2", "s2"))] "d" = some cv ∧
        lookupKV [("d", ("c1", "s1"))] "d" = some pv ∧ cv.1 ≠ pv.1) ∧
    ((7, "FOLDER_STRUCTURE_CHANGED: " ++ "d" ++
        " (metadata/structure modified)") ∈ sortedChangeEvents
        [("a.txt", "h1"), ("gone.txt", "h9")] [("d", ("c1", "s1"))]
        [("a.txt", "h1x")] [("d", ("c2", "s2"))] ↔
      ∃ cv pv, lookupKV [("d", ("c2", "s2"))] "d" = some cv ∧
        lookupKV [("d", ("c1", "s1"))] "d" = some pv ∧ cv.2 ≠ pv.2) :=
  detect_changes_classification
    [("a.txt", "h1"), ("gone.txt", "h9")] [("a.txt", "h1x")]
    [("d", ("c1", "s1"))] [("d", ("c2", "s2"))] "d"
    (by decide) (by decide) (by decide) (by decide)

theorem dinsert_nodup_keys {κ ν : Type} [DecidableEq κ] (k : κ) (v : ν) :
    ∀ (c : List (κ × ν)), (c.map Prod.fst).Nodup →
    ((dinsert k v c).map Prod.fst).Nodup := by
  intro c
  induction c with
  | nil =>
    intro _
    simp [dinsert]
  | cons e rest ih =>
    rcases e with ⟨k₂, v₂⟩
    intro hnd
    simp only [List.map_cons, List.nodup_cons] at hnd
    by_cases hk : k₂ = k
    · subst hk
      rw [dinsert, if_pos rfl]
      simp only [List.map_cons, List.nodup_cons]
      exact hnd
    · simp only [dinsert, if_neg hk, List.map_cons, List.nodup_cons]
      refine ⟨?_, ih hnd.2⟩
      intro hmem
      rcases List.mem_map.mp hmem with ⟨kv, hkv, hfst⟩
      rcases dinsert_mem hkv with h | h
      · rw [h] at hfst
        exact hk hfst.symm
      · exact hnd.1 (hfst ▸ List.mem_map.mpr ⟨kv, h, rfl⟩)

theorem foldl_dinsert_nodup_keys {α κ ν : Type} [DecidableEq κ]
    (key : α → κ) (val : α → ν) (Q : α → Prop) [DecidablePred Q] :
    ∀ (l : List α) (acc : List (κ × ν)), (acc.map Prod.fst).Nodup →
    (((l.foldl (fun a e => if Q e then dinsert (key e) (val e) a else a)
      acc).map Prod.fst)).Nodup := by
  intro l
  induction l with
  | nil =>
    intro acc h
    exact h
  | cons e rest ih =>
    intro acc h
    simp only [List.foldl_cons]
    by_cases hq : Q e
    · rw [if_pos hq]
      exact ih _ (dinsert_nodup_keys _ _ _ h)
    · rw [if_neg hq]
      exact ih _ h

/-- C10: a path present in the previous snapshot's file map whose current
hash computation returned the empty (absent) digest is filtered out of
`current_files`, so the differ emits DELETED_FILE for it and no
MODIFIED_FILE — unreadability is indistinguishable from deletion at the
diff interface. -/
theorem unreadable_file_indistinguishable_from_deleted
    (root : List String)
    (prevF : List (String × String))
    (prevD : List (String × (String × String)))
    (fileResults : List (List String × String))
    (folderResults : List (List String × String × String))
    (p0 : List String) (rp ph : String)
    (hpf : (prevF.map Prod.fst).Nodup)
    (hprev : (rp, ph) ∈ prevF)
    (_hp0mem : (p0, "") ∈ fileResults)
    (_hp0rel : renderRel (relTo p0 root) = rp)
    (hnone : ∀ e ∈ fileResults, e.2 ≠ "" → renderRel (relTo e.1 root) ≠ rp) :
    (1, "DELETED_FILE: " ++ rp) ∈ sortedChangeEvents prevF prevD
      (currentFilesOf root fileResults)
      (currentFoldersOf root folderResults) ∧
    (3, "MODIFIED_FILE: " ++ rp) ∉ sortedChangeEvents prevF prevD
      (currentFilesOf root fileResults)
      (currentFoldersOf root folderResults) ∧
    lookupKV (currentFilesOf root fileResults) rp = none := by
  have hcurrnone : lookupKV (currentFilesOf root fileResults) rp = none := by
    refine (foldl_dinsert_lookup_none (fun e => renderRel (relTo e.1 root))
      (fun e => e.2) (fun e => e.2 ≠ "") fileResults [] rp).mpr ⟨rfl, ?_⟩
    exact hnone
  have hprevne : lookupKV prevF rp ≠ none := by
    rw [lookupKV_of_mem_nodup hpf hprev]
    simp
  have hcfnd : ((currentFilesOf root fileResults).map Prod.fst).Nodup :=
    foldl_dinsert_nodup_keys _ _ _ fileResults [] (by simp)
  refine ⟨?_, ?_, hcurrnone⟩
  · simp only [sortedChangeEvents]
    rw [(pysort_perm _ _).mem_iff]
    simp only [changeEventsList, List.mem_append]
    exact Or.inl (Or.inl (Or.inl (Or.inl (Or.inl
      ((mem_delete_block prevF (currentFilesOf root fileResults) 1
        "DELETED_FILE: " rp hpf).mpr ⟨hprevne, hcurrnone⟩)))))
  · intro hmem3
    simp only [sortedChangeEvents] at hmem3
    rw [(pysort_perm _ _).mem_iff] at hmem3
    simp only [changeEventsList, List.mem_append] at hmem3
    rcases hmem3 with (((((h | h) | h) | h) | h) | h)
    · rcases List.mem_filterMap.mp h with ⟨a, _, hga⟩
      rw [Option.ite_none_right_eq_some] at hga
      obtain ⟨-, h2⟩ := hga
      injection h2 with h3
      rw [Prod.mk.injEq] at h3
      exact absurd h3.1 (by simp)
    · rcases List.mem_filterMap.mp h with ⟨a, _, hga⟩
      rw [Option.ite_none_right_eq_some] at hga
      obtain ⟨-, h2⟩ := hga
      injection h2 with h3
      rw [Prod.mk.injEq] at h3
      exact absurd h3.1 (by simp)
    · have hmod := (mem_modified_block "MODIFIED_FILE: " rp 3
        (currentFilesOf root fileResults) prevF hcfnd).mp h
      rcases hmod with ⟨hh, ph2, hc, -, -⟩
      rw [hcurrnone] at hc
      cases hc
    · rcases List.mem_filterMap.mp h with ⟨a, _, hga⟩
      rw [Option.ite_none_right_eq_some] at hga
      obtain ⟨-, h2⟩ := hga
      injection h2 with h3
      rw [Prod.mk.injEq] at h3
      exact absurd h3.1 (by simp)
    · rcases List.mem_filterMap.mp h with ⟨a, _, hga⟩
      rw [Option.ite_none_right_eq_some] at hga
      obtain ⟨-, h2⟩ := hga
      injection h2 with h3
      rw [Prod.mk.injEq] at h3
      exact absurd h3.1 (by simp)
    · rcases List.mem_flatMap.mp h with ⟨a, -, hga⟩
      cases hlk : lookupKV prevD a.1 with
      | none =>
        rw [hlk] at hga
        simp at hga
      | some pv =>
        rw [hlk] at hga
        rw [List.mem_append] at hga
        rcases hga with hga | hga
        · by_cases hcond : a.2.1 ≠ pv.1
          · rw [if_pos hcond] at hga
            rw [List.mem_singleton, Prod.mk.injEq] at hga
            exact absurd hga.1 (by simp)
          · rw [if_neg hcond] at hga
            simp at hga
        · by_cases hcond : a.2.2 ≠ pv.2
          · rw [if_pos hcond] at hga
            rw [List.mem_singleton, Prod.mk.injEq] at hga
            exact absurd hga.1 (by simp)
          · rw [if_neg hcond] at hga
            simp at hga

/-- Witness for C10: the previous snapshot knows `f.txt`, the current run
hashed it to the empty digest. -/
theorem unreadable_file_indistinguishable_from_deleted_witness :
    (1, "DELETED_FILE: " ++ "f.txt") ∈ sortedChangeEvents
      [("f.txt", "h1")] []
      (currentFilesOf ["r"] [(["r", "f.txt"], "")])
      (currentFoldersOf ["r"] []) ∧
    (3, "MODIFIED_FILE: " ++ "f.txt") ∉ sortedChangeEvents
      [("f.txt", "h1")] []
      (currentFilesOf ["r"] [(["r", "f.txt"], "")])
      (currentFoldersOf ["r"] []) ∧
    lookupKV (currentFilesOf ["r"] [(["r", "f.txt"], "")]) "f.txt" = none :=
  unreadable_file_indistinguishable_from_deleted ["r"]
    [("f.txt", "h1")] [] [(["r", "f.txt"], "")] []
    ["r", "f.txt"] "f.txt" "h1"
    (by decide) (by decide) (by decide) (by decide) (by decide)

/-- A string that does not begin with the nesting delimiter `[` (true of
every hex digest; the bracket-stripping of lines 306-308 can then never
fire). -/
def strOk (s : String) : Prop := s.data.head? ≠ some '['

instance (s : String) : Decidable (strOk s) := by
  unfold strOk
  infer_instance

theorem ne_empty_iff_data {s : String} : s ≠ "" ↔ s.data ≠ [] := by
  constructor
  · intro h hd
    exact h (String.ext hd)
  · intro h he
    rw [he] at h
    exact h rfl

theorem data_head_append (a b : String) (ha : a ≠ "") :
    (a ++ b).data.head? = a.data.head? := by
  rw [String.data_append]
  rcases hd : a.data with _ | ⟨c, t⟩
  · exact absurd hd (ne_empty_iff_data.mp ha)
  · simp

theorem append_ne_empty_left (a b : String) (ha : a ≠ "") : a ++ b ≠ "" := by
  rw [ne_empty_iff_data, String.data_append]
  intro h
  rcases List.append_eq_nil.mp h with ⟨h1, -⟩
  exact ne_empty_iff_data.mp ha h1

theorem joinSep_foldl_data (sep : String) (t : List String) :
    ∀ a : String, ∃ r : List Char,
      (t.foldl (fun x s => x ++ sep ++ s) a).data = a.data ++ r := by
  induction t with
  | nil =>
    intro a
    exact ⟨[], by simp⟩
  | cons s rest ih =>
    intro a
    rcases ih (a ++ sep ++ s) with ⟨r, hr⟩
    refine ⟨sep.data ++ s.data ++ r, ?_⟩
    simp only [List.foldl_cons, hr, String.data_append]
    simp [List.append_assoc]

theorem strOk_joinSep (parts : List String)
    (h : ∀ s ∈ parts, s ≠ "" ∧ strOk s) : strOk (joinSep "/" parts) := by
  cases parts with
  | nil =>
    simp [joinSep, strOk]
  | cons x t =>
    have hx := h x (List.mem_cons_self _ _)
    rcases joinSep_foldl_data "/" t x with ⟨r, hr⟩
    unfold strOk joinSep
    rw [hr]
    rcases hd : x.data with _ | ⟨c, cs⟩
    · exact absurd hd (ne_empty_iff_data.mp hx.1)
    · simp only [List.cons_append, List.head?_cons]
      have := hx.2
    -- x's head is not a bracket
      unfold strOk at this
      rw [hd] at this
      simp only [List.head?_cons] at this
      exact this

theorem stripBrackets_of_strOk (s : String) (h : strOk s) :
    stripBrackets s = s := by
  unfold stripBrackets
  rw [if_neg]
  intro hc
  exact h hc.1

theorem bracket_empty_eq (a : String) : a ++ "[]" = a ++ "[" ++ "" ++ "]" := by
  apply String.ext
  simp [String.data_append]

theorem filterMap_ext {α β : Type} {l : List α} {f g : α → Option β}
    (h : ∀ a ∈ l, f a = g a) : l.filterMap f = l.filterMap g := by
  induction l with
  | nil => rfl
  | cons a t ih =>
    simp only [List.filterMap_cons, h a (List.mem_cons_self _ _)]
    rw [ih (fun b hb => h b (List.mem_cons_of_mem _ hb))]

theorem buildRec_eq_specRender (fm : List (List String × String))
    (dm : List (List String × (String × String)))
    (hfm : ∀ e ∈ fm, strOk e.2) (hdm : ∀ e ∈ dm, strOk e.2.1) :
    ∀ (N : Nat) (t : DirTree), sizeOf t ≤ N → ∀ p : List String,
      build_structure_recursive fm dm p t = specRender fm dm p t ∧
      strOk (specRender fm dm p t) := by
  intro N
  induction N with
  | zero =>
    intro t ht
    cases t with
    | mk fls subs =>
      simp only [DirTree.mk.sizeOf_spec] at ht
      omega
  | succ N ih =>
    intro t ht p
    cases t with
    | mk fls subs =>
      have hsubIH : ∀ nt ∈ pysort (fun a b => strLeB a.1 b.1) subs,
          ∀ q : List String,
          build_structure_recursive fm dm q nt.2 = specRender fm dm q nt.2 ∧
          strOk (specRender fm dm q nt.2) := by
        intro nt hmem q
        have h1 : nt ∈ subs := (pysort_perm _ subs).mem_iff.mp hmem
        have h2 := List.sizeOf_lt_of_mem h1
        simp only [DirTree.mk.sizeOf_spec] at ht
        rcases nt with ⟨n, tc⟩
        simp only [Prod.mk.sizeOf_spec] at h2
        refine ih tc ?_ q
        omega
      have hfolder : (pysort (fun a b => strLeB a.1 b.1) subs).attach.filterMap
            (fun nt =>
              match nt with
              | ⟨(n, tc), _⟩ =>
                let hs := (lookupKV dm (p ++ [n])).getD ("", "")
                if hs.1 ≠ "" ∧ hs.2 ≠ "" then
                  let sub := build_structure_recursive fm dm (p ++ [n]) tc
                  if sub ≠ "" then
                    some (hs.1 ++ "[" ++ stripBrackets sub ++ "]")
                  else some (hs.1 ++ "[]")
                else none) =
          (pysort (fun a b => strLeB a.1 b.1) subs).attach.filterMap
            (fun nt =>
              match nt with
              | ⟨(n, tc), _⟩ =>
                let hs := (lookupKV dm (p ++ [n])).getD ("", "")
                if hs.1 ≠ "" ∧ hs.2 ≠ "" then
                  some (hs.1 ++ "[" ++ specRender fm dm (p ++ [n]) tc ++ "]")
                else none) := by
        refine filterMap_ext ?_
        rintro ⟨⟨n, tc⟩, hmem⟩ -
        simp only
        by_cases hg : ((lookupKV dm (p ++ [n])).getD ("", "")).1 ≠ "" ∧
            ((lookupKV dm (p ++ [n])).getD ("", "")).2 ≠ ""
        · rw [if_pos hg, if_pos hg]
          have heq := (hsubIH (n, tc) hmem (p ++ [n])).1
          have hok := (hsubIH (n, tc) hmem (p ++ [n])).2
          by_cases hS : specRender fm dm (p ++ [n]) tc = ""
          · rw [heq, if_neg (by rw [hS]; simp), hS]
            rw [bracket_empty_eq]
          · rw [heq, if_pos hS, stripBrackets_of_strOk _ hok]
        · rw [if_neg hg, if_neg hg]
      constructor
      · rw [build_structure_recursive, specRender]
        simp only
        rw [hfolder]
      · rw [specRender]
        simp only
        refine strOk_joinSep _ ?_
        intro s hs
        rcases List.mem_append.mp hs with hmem | hmem
        · rcases List.mem_filterMap.mp hmem with ⟨n, -, hn⟩
          rw [Option.ite_none_right_eq_some] at hn
          rcases hn with ⟨hne, hn⟩
          injection hn with hn
          cases hlk : lookupKV fm (p ++ [n]) with
          | none =>
            rw [hlk] at hne hn
            simp at hne
          | some v =>
            rw [hlk] at hne hn
            simp only [Option.getD_some] at hne hn
            have hv := hfm _ (lookupKV_mem hlk)
            rw [← hn]
            exact ⟨hne, hv⟩
        · rcases List.mem_filterMap.mp hmem with ⟨nt, -, hn⟩
          rcases nt with ⟨⟨n, tc⟩, hmemn⟩
          simp only at hn
          rw [Option.ite_none_right_eq_some] at hn
          rcases hn with ⟨hg, hn⟩
          injection hn with hn
          have hs1ok : strOk ((lookupKV dm (p ++ [n])).getD ("", "")).1 := by
            cases hlk : lookupKV dm (p ++ [n]) with
            | none =>
              rw [hlk] at hg
              simp at hg
            | some v =>
              simp only [Option.getD_some]
              exact hdm _ (lookupKV_mem hlk)
          have hne1 : ((lookupKV dm (p ++ [n])).getD ("", "")).1 ≠ "" := hg.1
          rw [← hn]
          constructor
          · exact append_ne_empty_left _ _
              (append_ne_empty_left _ _ (append_ne_empty_left _ _ hne1))
          · unfold strOk
            rw [data_head_append _ _
                (append_ne_empty_left _ _ (append_ne_empty_left _ _ hne1)),
              data_head_append _ _ (append_ne_empty_left _ _ hne1),
              data_head_append _ _ hne1]
            exact hs1ok

/-- C9: when every digest in the maps is bracket-free (true of hex digests,
so the bracket-stripping of lines 306-308 never fires), the serializer's
output is exactly the spec's nested form: siblings joined with `/`, files
contributing their digest, subdirectories their contentsDigest followed by
the recursively rendered children in brackets (an empty directory rendering
as its contentsDigest immediately followed by `[]`), the whole wrapped once
as `[rootContentsDigest[rendering]]`. -/
theorem serializer_matches_spec (root : List String) (tree : DirTree)
    (fileResults : List (List String × String))
    (folderResults : List (List String × String × String))
    (h1 h2 : String)
    (hfm : ∀ e ∈ fileHashMapOf fileResults, strOk e.2)
    (hdm : ∀ e ∈ bhsFolderMap folderResults, strOk e.2.1)
    (hroot : lookupKV (bhsFolderMap folderResults) root = some (h1, h2))
    (hne1 : h1 ≠ "") (hne2 : h2 ≠ "") :
    build_hierarchical_structure root tree fileResults folderResults =
      "[" ++ h1 ++ "[" ++
        specRender (fileHashMapOf fileResults) (bhsFolderMap folderResults)
          root tree ++ "]]" := by
  have hmain := buildRec_eq_specRender (fileHashMapOf fileResults)
    (bhsFolderMap folderResults) hfm hdm (sizeOf tree) tree le_rfl root
  simp only [build_hierarchical_structure, hroot, Option.getD_some]
  rw [if_pos ⟨hne1, hne2⟩]
  rw [hmain.1]

/-- Witness for C9 on a concrete tree with one file and one empty
subdirectory. -/
theorem serializer_matches_spec_witness :
    build_hierarchical_structure ["r"] (.mk ["a"] [("s", DirTree.mk [] [])])
      [(["r", "a"], "fa")]
      [(["r"], "c1", "s1"), (["r", "s"], "c2", "s2")] =
      "[" ++ "c1" ++ "[" ++
        specRender (fileHashMapOf [(["r", "a"], "fa")])
          (bhsFolderMap [(["r"], "c1", "s1"), (["r", "s"], "c2", "s2")])
          ["r"] (.mk ["a"] [("s", DirTree.mk [] [])]) ++ "]]" :=
  serializer_matches_spec ["r"] (.mk ["a"] [("s", DirTree.mk [] [])])
    [(["r", "a"], "fa")] [(["r"], "c1", "s1"), (["r", "s"], "c2", "s2")]
    "c1" "s1" (by decide) (by decide) (by decide) (by decide) (by decide)
